import Mathlib

/-!
Verification of the ETL helper layer (db_connection.py, amg_cursor.py).

The Python sources are shallowly embedded: every method that the claims
touch is translated into an executable Lean definition.  Mutable object
state (`self.cache`, the `media.imports` table, the driver connection) is
passed explicitly as a `DbConnState` value; Python exceptions become
`Except` results that also carry the state at the moment of the raise
(Python mutations performed before an exception stay visible).  The model
fixes one `imports` table: the `media_schema` / `table_append` arguments of
the Python methods only select the table name inside the SQL text, so they
are dropped from the state-level embedding.
-/

/-! ### Python `str.upper` for ASCII strings (used by the source as `.upper()`) -/

/-- ASCII uppercase of one character, as Python `str.upper` acts on
the ASCII range used by this code base. -/
def upperChar (c : Char) : Char :=
  if 97 ≤ c.toNat ∧ c.toNat ≤ 122 then Char.ofNat (c.toNat - 32) else c

/-- Model of Python `s.upper()` on ASCII strings. -/
def pyUpper (s : String) : String :=
  (s.toList.map upperChar).asString

theorem toList_asString (l : List Char) : l.asString.toList = l := rfl

theorem toNat_upperChar_of_lower {c : Char} (h97 : 97 ≤ c.toNat) (h122 : c.toNat ≤ 122) :
    (upperChar c).toNat = c.toNat - 32 := by
  have hv : Nat.isValidChar (c.toNat - 32) := Or.inl (by omega)
  rw [upperChar, if_pos ⟨h97, h122⟩, Char.ofNat, dif_pos hv]
  rfl

theorem upperChar_idem (c : Char) : upperChar (upperChar c) = upperChar c := by
  by_cases h : 97 ≤ c.toNat ∧ c.toNat ≤ 122
  · have hn : (upperChar c).toNat = c.toNat - 32 := toNat_upperChar_of_lower h.1 h.2
    have hnot : ¬(97 ≤ (upperChar c).toNat ∧ (upperChar c).toNat ≤ 122) := by omega
    conv_lhs => rw [upperChar]
    rw [if_neg hnot]
  · have hc : upperChar c = c := by rw [upperChar, if_neg h]
    rw [hc, hc]

theorem pyUpper_idem (s : String) : pyUpper (pyUpper s) = pyUpper s := by
  unfold pyUpper
  rw [toList_asString, List.map_map]
  congr 1
  apply List.map_congr_left
  intro c _
  exact upperChar_idem c

deriving instance DecidableEq for Except

/-! ### Import-ledger data model (`media.imports` rows, `DbConnection` state) -/

/-- One row of the `media.imports` table, restricted to the columns the
embedded methods read or write. -/
structure ImportRecord where
  id : Nat
  file_name : String
  source : String
  file_date : String
  status : String
  file_path : String
  time_imported : Option Nat
deriving DecidableEq, Repr

/-- The imports table plus the server facilities the embedded SQL uses:
the next surrogate key the server will assign and the value of
`GETDATE()` (held fixed; no claim depends on the clock advancing). -/
structure MediaDb where
  records : List ImportRecord
  next_id : Nat
  now : Nat
deriving DecidableEq, Repr

/-- The mutable state of one `DbConnection` object: the database it talks
to, the `self.cache['filename_to_import_id']` sub-dictionary (`none` when
the outer key is absent), and a trace of the ledger-writing statements the
connection has issued — one `(file_name, stored status)` entry per
executed INSERT/UPDATE on the imports table. -/
structure DbConnState where
  db : MediaDb
  cache : Option (List (String × Nat))
  log : List (String × String)
deriving DecidableEq, Repr

/-- Errors of the embedded ledger methods.  The Python code raises plain
`Exception`s; the spec's taxonomy names them `AmbiguousImportRecordError`
and `InvalidTransitionError`. -/
inductive MediaError where
  | ambiguousImportRecord (file_name : String)
  | invalidTransition (file_name status : String)
deriving DecidableEq, Repr

/-- Lookup in the `filename_to_import_id` cache: mirrors
`cache_key in self.cache and file_name in self.cache[cache_key]`. -/
def cacheFind : Option (List (String × Nat)) → String → Option Nat
  | none, _ => none
  | some m, fn => m.lookup fn

/-- Store into the cache, creating the inner dictionary when absent
(`if cache_key not in self.cache: self.cache[cache_key] = {}`). -/
def cacheInsert : Option (List (String × Nat)) → String → Nat → Option (List (String × Nat))
  | none, fn, importId => some [(fn, importId)]
  | some m, fn, importId => some ((fn, importId) :: m)

/-- Row filter of the lookup query:
`WHERE source = %(data_source)s AND file_name = %(file_name)s`. -/
def matchesImport (ds fn : String) (r : ImportRecord) : Bool :=
  r.source == ds && r.file_name == fn

/-- Result list of the `SELECT id FROM media.imports WHERE ...` query. -/
def queryImports (db : MediaDb) (ds fn : String) : List ImportRecord :=
  db.records.filter (matchesImport ds fn)

/-- `DbConnection.get_media_import_id` (db_connection.py:199-248).  On the
error path the returned state is the state at the raise. -/
def get_media_import_id (st : DbConnState) (data_source file_name : String) :
    Except (MediaError × DbConnState) (Option Nat × DbConnState) :=
  match cacheFind st.cache file_name with
  | some importId => .ok (some importId, st)
  | none =>
    match queryImports st.db (pyUpper data_source) file_name with
    | [] => .ok (none, st)
    | [r] => .ok (some r.id, { st with cache := cacheInsert st.cache file_name r.id })
    | _ => .error (.ambiguousImportRecord file_name, st)

/-- `DbConnection.update_media_import` (db_connection.py:250-315).  The
INSERT names the columns `(file_name, source, file_date, status,
file_path)` only, so a created row has NULL `time_imported`; the UPDATE
sets `status`, adds `time_imported = GETDATE()` exactly when the `status`
argument is the literal string `'STARTED'`, and filters on `id`. -/
def update_media_import (st : DbConnState)
    (data_source file_name file_date status file_path : String) :
    Except (MediaError × DbConnState) (Option Nat × DbConnState) :=
  match get_media_import_id st (pyUpper data_source) file_name with
  | .error e => .error e
  | .ok (none, st1) =>
    if pyUpper status = "STARTED" ∨ pyUpper status = "SKIPPED" then
      let db2 : MediaDb :=
        { st1.db with
          records := st1.db.records ++
            [⟨st1.db.next_id, file_name, pyUpper data_source, file_date, pyUpper status,
              file_path, none⟩],
          next_id := st1.db.next_id + 1 }
      let st2 : DbConnState :=
        { st1 with db := db2, log := st1.log ++ [(file_name, pyUpper status)] }
      get_media_import_id st2 (pyUpper data_source) file_name
    else
      .error (.invalidTransition file_name status, st1)
  | .ok (some importId, st1) =>
    let db2 : MediaDb :=
      { st1.db with
        records := st1.db.records.map (fun r =>
          if r.id = importId then
            { r with
              status := status,
              time_imported :=
                if status = "STARTED" then some st1.db.now else r.time_imported }
          else r) }
    .ok (some importId, { st1 with db := db2, log := st1.log ++ [(file_name, status)] })

/-- Outcome of one `run_ingest_queries` call: normal return, re-raise of
the driver error after the `finally` block, or an exception escaping the
`finally` block itself (which replaces the original one in Python). -/
inductive IngestOutcome where
  | normal
  | reraised (e : String)
  | ledgerFailure (e : MediaError)
deriving DecidableEq, Repr

/-- The `finally` loop of `run_ingest_queries`: one `update_media_import`
per `(file_name, file_date)` pair, stopping at the first exception. -/
def runLedgerLoop (st : DbConnState) (ds status : String) :
    List (String × String) → Option MediaError × DbConnState
  | [] => (none, st)
  | (fn, fd) :: rest =>
    match update_media_import st ds fn fd status "" with
    | .ok (_, st') => runLedgerLoop st' ds status rest
    | .error (e, st') => (some e, st')

/-- `DbConnection.run_ingest_queries` (db_connection.py:351-387).  The SQL
execution itself is external, so its outcome is a parameter: `.ok ()` for
a successful `execute_sql_file`, `.error e` for a raised `psycopg2.Error`
with message `e`.  The `finally` block runs in both cases. -/
def run_ingest_queries (st : DbConnState) (data_source : String)
    (execResult : Except String Unit) (list_of_files : List (String × String)) :
    IngestOutcome × DbConnState :=
  match execResult with
  | .ok _ =>
    match runLedgerLoop st (pyUpper data_source) "SUCCESS" list_of_files with
    | (none, st') => (.normal, st')
    | (some e, st') => (.ledgerFailure e, st')
  | .error err =>
    match runLedgerLoop st (pyUpper data_source) "FAIL" list_of_files with
    | (none, st') => (.reraised err, st')
    | (some e, st') => (.ledgerFailure e, st')

/-! ### Basic lemmas about the ledger operations -/

/-- Status-and-timestamp rewrite applied by the UPDATE branch of
`update_media_import` to the row it targets. -/
def applyStatus (status : String) (now : Nat) (r : ImportRecord) : ImportRecord :=
  { r with
    status := status,
    time_imported := if status = "STARTED" then some now else r.time_imported }

theorem applyStatus_status (status : String) (now : Nat) (r : ImportRecord) :
    (applyStatus status now r).status = status := rfl

theorem applyStatus_time_imported (status : String) (now : Nat) (r : ImportRecord) :
    (applyStatus status now r).time_imported =
      if status = "STARTED" then some now else r.time_imported := rfl

theorem get_media_import_id_cache_hit {st : DbConnState} {fn : String} {importId : Nat}
    (h : cacheFind st.cache fn = some importId) (ds : String) :
    get_media_import_id st ds fn = .ok (some importId, st) := by
  unfold get_media_import_id
  rw [h]

theorem get_media_import_id_absent {st : DbConnState} {ds fn : String}
    (hc : cacheFind st.cache fn = none)
    (hq : queryImports st.db (pyUpper ds) fn = []) :
    get_media_import_id st ds fn = .ok (none, st) := by
  unfold get_media_import_id
  rw [hc, hq]

theorem get_media_import_id_unique {st : DbConnState} {ds fn : String} {r : ImportRecord}
    (hc : cacheFind st.cache fn = none)
    (hq : queryImports st.db (pyUpper ds) fn = [r]) :
    get_media_import_id st ds fn =
      .ok (some r.id, { st with cache := cacheInsert st.cache fn r.id }) := by
  unfold get_media_import_id
  rw [hc, hq]

theorem get_media_import_id_dup {st : DbConnState} {ds fn : String}
    {r1 r2 : ImportRecord} {rest : List ImportRecord}
    (hc : cacheFind st.cache fn = none)
    (hq : queryImports st.db (pyUpper ds) fn = r1 :: r2 :: rest) :
    get_media_import_id st ds fn = .error (.ambiguousImportRecord fn, st) := by
  unfold get_media_import_id
  rw [hc, hq]

theorem update_media_import_existing {st st1 : DbConnState} {ds fn : String} {importId : Nat}
    (fd status fp : String)
    (hget : get_media_import_id st (pyUpper ds) fn = .ok (some importId, st1)) :
    update_media_import st ds fn fd status fp =
      .ok (some importId,
        { st1 with
          db := { st1.db with
            records := st1.db.records.map (fun r =>
              if r.id = importId then applyStatus status st1.db.now r else r) },
          log := st1.log ++ [(fn, status)] }) := by
  unfold update_media_import
  rw [hget]
  rfl

theorem update_media_import_creates {st : DbConnState} {ds fn : String}
    (fd status fp : String)
    (hc : cacheFind st.cache fn = none)
    (hq : queryImports st.db (pyUpper ds) fn = [])
    (hs : pyUpper status = "STARTED" ∨ pyUpper status = "SKIPPED") :
    update_media_import st ds fn fd status fp =
      .ok (some st.db.next_id,
        { db := { records :=
                    st.db.records ++
                      [⟨st.db.next_id, fn, pyUpper ds, fd, pyUpper status, fp, none⟩],
                  next_id := st.db.next_id + 1,
                  now := st.db.now },
          cache := cacheInsert st.cache fn st.db.next_id,
          log := st.log ++ [(fn, pyUpper status)] }) := by
  have hq' : queryImports st.db (pyUpper (pyUpper ds)) fn = [] := by
    rw [pyUpper_idem]; exact hq
  have hget := @get_media_import_id_absent st (pyUpper ds) fn hc hq'
  unfold update_media_import
  simp only [hget]
  rw [if_pos hs]
  have hq2 : queryImports
      (⟨st.db.records ++ [⟨st.db.next_id, fn, pyUpper ds, fd, pyUpper status, fp, none⟩],
        st.db.next_id + 1, st.db.now⟩ : MediaDb) (pyUpper (pyUpper ds)) fn =
      [⟨st.db.next_id, fn, pyUpper ds, fd, pyUpper status, fp, none⟩] := by
    unfold queryImports at hq ⊢
    rw [pyUpper_idem]
    show List.filter _ (st.db.records ++ [_]) = _
    rw [List.filter_append, hq]
    simp [matchesImport]
  exact @get_media_import_id_unique
    ⟨⟨st.db.records ++ [⟨st.db.next_id, fn, pyUpper ds, fd, pyUpper status, fp, none⟩],
      st.db.next_id + 1, st.db.now⟩, st.cache, st.log ++ [(fn, pyUpper status)]⟩
    (pyUpper ds) fn
    ⟨st.db.next_id, fn, pyUpper ds, fd, pyUpper status, fp, none⟩ hc hq2

theorem update_media_import_invalid {st : DbConnState} {ds fn : String}
    (fd status fp : String)
    (hc : cacheFind st.cache fn = none)
    (hq : queryImports st.db (pyUpper ds) fn = [])
    (hs : ¬(pyUpper status = "STARTED" ∨ pyUpper status = "SKIPPED")) :
    update_media_import st ds fn fd status fp =
      .error (.invalidTransition fn status, st) := by
  have hq' : queryImports st.db (pyUpper (pyUpper ds)) fn = [] := by
    rw [pyUpper_idem]; exact hq
  have hget := @get_media_import_id_absent st (pyUpper ds) fn hc hq'
  unfold update_media_import
  simp only [hget]
  rw [if_neg hs]

/-! ### Claims about the import ledger -/

/-- Claim C10: the identity cache in `get_media_import_id` is keyed by
`file_name` alone — once an import id is cached for a file name, every
later call with that file name returns the cached id with the connection
state untouched (so no query runs), for every `data_source` argument and
every table contents, duplicates included: both the source restriction
and the multiple-record ambiguity check are bypassed on cache hits. -/
theorem C10_cache_keyed_by_file_name_alone
    (st : DbConnState) (data_source file_name : String) (importId : Nat)
    (h : cacheFind st.cache file_name = some importId) :
    get_media_import_id st data_source file_name = .ok (some importId, st) :=
  get_media_import_id_cache_hit h data_source

/-- Witness for C10 at a concrete state: `x.csv` is cached with id 9,
the table holds two duplicate rows for `(SRC, x.csv)` and the cached id
belongs to neither of them, yet the lookup returns 9. -/
theorem C10_cache_keyed_by_file_name_alone_witness :
    get_media_import_id
        ⟨⟨[⟨1, "x.csv", "OTHER", "d", "FAIL", "", none⟩,
           ⟨2, "x.csv", "SRC", "d", "FAIL", "", none⟩], 3, 0⟩,
         some [("x.csv", 9)], []⟩ "SRC" "x.csv" =
      .ok (some 9,
        ⟨⟨[⟨1, "x.csv", "OTHER", "d", "FAIL", "", none⟩,
           ⟨2, "x.csv", "SRC", "d", "FAIL", "", none⟩], 3, 0⟩,
         some [("x.csv", 9)], []⟩) :=
  C10_cache_keyed_by_file_name_alone _ "SRC" "x.csv" 9 (by decide)

/-- Counterexample to claim C6 as stated: an identity carried by two
stored rows does NOT always raise `AmbiguousImportRecordError` — when the
file name sits in the identity cache the lookup silently returns the
cached id.  Here `(SRC, c.csv)` has two rows, yet the lookup succeeds. -/
theorem C6_counterexample_cached_lookup_ignores_duplicates :
    (queryImports
        (⟨[⟨1, "c.csv", "SRC", "d", "STARTED", "", none⟩,
           ⟨2, "c.csv", "SRC", "d", "STARTED", "", none⟩], 3, 0⟩ : MediaDb)
        "SRC" "c.csv").length = 2 ∧
    get_media_import_id
        ⟨⟨[⟨1, "c.csv", "SRC", "d", "STARTED", "", none⟩,
           ⟨2, "c.csv", "SRC", "d", "STARTED", "", none⟩], 3, 0⟩,
         some [("c.csv", 7)], []⟩ "SRC" "c.csv" =
      .ok (some 7,
        ⟨⟨[⟨1, "c.csv", "SRC", "d", "STARTED", "", none⟩,
           ⟨2, "c.csv", "SRC", "d", "STARTED", "", none⟩], 3, 0⟩,
         some [("c.csv", 7)], []⟩) := by
  constructor
  · decide
  · decide

/-- Claim C6 (amended): for every identity mapped by more than one stored
row, any lookup whose file name is NOT already in the identity cache
raises `AmbiguousImportRecordError` and aborts with the state unchanged —
and `update_media_import` on such an identity aborts the same way. -/
theorem C6_duplicate_identity_lookup_raises
    (st : DbConnState) (ds fn fd status fp : String)
    (r1 r2 : ImportRecord) (rest : List ImportRecord)
    (hc : cacheFind st.cache fn = none)
    (hq : queryImports st.db (pyUpper ds) fn = r1 :: r2 :: rest) :
    get_media_import_id st ds fn = .error (.ambiguousImportRecord fn, st) ∧
    update_media_import st ds fn fd status fp =
      .error (.ambiguousImportRecord fn, st) := by
  have hq' : queryImports st.db (pyUpper (pyUpper ds)) fn = r1 :: r2 :: rest := by
    rw [pyUpper_idem]; exact hq
  refine ⟨get_media_import_id_dup hc hq, ?_⟩
  have hget := @get_media_import_id_dup st (pyUpper ds) fn r1 r2 rest hc hq'
  unfold update_media_import
  simp only [hget]

/-- Witness for C6 (amended) at a concrete state: two rows share
`(SRC, c.csv)`, the cache is empty, and both the lookup and the status
update raise the ambiguity error. -/
theorem C6_duplicate_identity_lookup_raises_witness :
    get_media_import_id
        ⟨⟨[⟨1, "c.csv", "SRC", "d", "STARTED", "", none⟩,
           ⟨2, "c.csv", "SRC", "d", "STARTED", "", none⟩], 3, 0⟩, none, []⟩
        "SRC" "c.csv" =
      .error (.ambiguousImportRecord "c.csv",
        ⟨⟨[⟨1, "c.csv", "SRC", "d", "STARTED", "", none⟩,
           ⟨2, "c.csv", "SRC", "d", "STARTED", "", none⟩], 3, 0⟩, none, []⟩) ∧
    update_media_import
        ⟨⟨[⟨1, "c.csv", "SRC", "d", "STARTED", "", none⟩,
           ⟨2, "c.csv", "SRC", "d", "STARTED", "", none⟩], 3, 0⟩, none, []⟩
        "SRC" "c.csv" "d" "SUCCESS" "" =
      .error (.ambiguousImportRecord "c.csv",
        ⟨⟨[⟨1, "c.csv", "SRC", "d", "STARTED", "", none⟩,
           ⟨2, "c.csv", "SRC", "d", "STARTED", "", none⟩], 3, 0⟩, none, []⟩) :=
  C6_duplicate_identity_lookup_raises _ "SRC" "c.csv" "d" "SUCCESS" ""
    ⟨1, "c.csv", "SRC", "d", "STARTED", "", none⟩
    ⟨2, "c.csv", "SRC", "d", "STARTED", "", none⟩ [] (by decide) (by decide)

/-- Claim C4: for an identity `(source, file_name)` with no stored row and
no cache entry, `update_media_import` creates a row exactly when the
requested status is `STARTED` or `SKIPPED`; any of the other statuses
(`SUCCESS`, `FAIL`, `UNKNOWN`) raises `InvalidTransitionError` with the
connection state — cache and table — unchanged. -/
theorem C4_create_requires_started_or_skipped
    (st : DbConnState) (ds fn fd fp status : String)
    (hc : cacheFind st.cache fn = none)
    (hq : queryImports st.db (pyUpper ds) fn = [])
    (hstatus : status ∈ (["STARTED", "SUCCESS", "FAIL", "SKIPPED", "UNKNOWN"] : List String)) :
    ((status = "STARTED" ∨ status = "SKIPPED") →
      update_media_import st ds fn fd status fp =
        .ok (some st.db.next_id,
          { db := { records :=
                      st.db.records ++ [⟨st.db.next_id, fn, pyUpper ds, fd, status, fp, none⟩],
                    next_id := st.db.next_id + 1,
                    now := st.db.now },
            cache := cacheInsert st.cache fn st.db.next_id,
            log := st.log ++ [(fn, status)] })) ∧
    (¬(status = "STARTED" ∨ status = "SKIPPED") →
      update_media_import st ds fn fd status fp =
        .error (.invalidTransition fn status, st)) := by
  constructor
  · rintro (rfl | rfl)
    · have hup : pyUpper "STARTED" = "STARTED" := by decide
      have h := update_media_import_creates fd "STARTED" fp hc hq (Or.inl hup)
      rw [hup] at h
      exact h
    · have hup : pyUpper "SKIPPED" = "SKIPPED" := by decide
      have h := update_media_import_creates fd "SKIPPED" fp hc hq (Or.inr hup)
      rw [hup] at h
      exact h
  · intro hno
    apply update_media_import_invalid fd status fp hc hq
    fin_cases hstatus
    · exact absurd (Or.inl rfl) hno
    · decide
    · decide
    · exact absurd (Or.inr rfl) hno
    · decide

/-- Witness for C4 at concrete inputs: on an empty ledger, requesting
`SUCCESS` for `b.csv` raises `InvalidTransitionError` and leaves the
state unchanged, while requesting `STARTED` creates the row. -/
theorem C4_create_requires_started_or_skipped_witness :
    update_media_import ⟨⟨[], 0, 0⟩, none, []⟩ "SRC" "b.csv" "d" "SUCCESS" "p" =
      .error (.invalidTransition "b.csv" "SUCCESS", ⟨⟨[], 0, 0⟩, none, []⟩) ∧
    update_media_import ⟨⟨[], 0, 0⟩, none, []⟩ "SRC" "a.csv" "d" "STARTED" "p" =
      .ok (some 0,
        ⟨⟨[⟨0, "a.csv", "SRC", "d", "STARTED", "p", none⟩], 1, 0⟩,
         some [("a.csv", 0)], [("a.csv", "STARTED")]⟩) := by
  constructor
  · exact (C4_create_requires_started_or_skipped ⟨⟨[], 0, 0⟩, none, []⟩ "SRC" "b.csv" "d" "p"
      "SUCCESS" (by decide) (by decide) (by decide)).2 (by decide)
  · have h := (C4_create_requires_started_or_skipped ⟨⟨[], 0, 0⟩, none, []⟩ "SRC" "a.csv" "d" "p"
      "STARTED" (by decide) (by decide) (by decide)).1 (Or.inl rfl)
    rw [h]
    decide

/-- Claim C5: for an identity that already has a (unique, uncached) row,
`update_media_import` succeeds for EVERY requested status — the row's
status is overwritten with the argument — and `time_imported` is stamped
with `GETDATE()` exactly when the requested status is `STARTED`,
otherwise it is left unchanged. -/
theorem C5_existing_any_status_allowed
    (st : DbConnState) (ds fn fd status fp : String) (r : ImportRecord)
    (hc : cacheFind st.cache fn = none)
    (hq : queryImports st.db (pyUpper ds) fn = [r]) :
    update_media_import st ds fn fd status fp =
      .ok (some r.id,
        { db := { records := st.db.records.map (fun x =>
                    if x.id = r.id then applyStatus status st.db.now x else x),
                  next_id := st.db.next_id,
                  now := st.db.now },
          cache := cacheInsert st.cache fn r.id,
          log := st.log ++ [(fn, status)] }) ∧
    (applyStatus status st.db.now r).status = status ∧
    (applyStatus status st.db.now r).time_imported =
      (if status = "STARTED" then some st.db.now else r.time_imported) := by
  have hq' : queryImports st.db (pyUpper (pyUpper ds)) fn = [r] := by
    rw [pyUpper_idem]; exact hq
  have hget := @get_media_import_id_unique st (pyUpper ds) fn r hc hq'
  refine ⟨?_, rfl, rfl⟩
  have h := update_media_import_existing fd status fp hget
  exact h

/-- Witness for C5 at a concrete state: the `(SRC, a.csv)` row is moved
to `FAIL`; the call succeeds and `time_imported` keeps its old value. -/
theorem C5_existing_any_status_allowed_witness :
    update_media_import
        ⟨⟨[⟨4, "a.csv", "SRC", "d", "STARTED", "", some 9⟩], 5, 77⟩, none, []⟩
        "src" "a.csv" "d" "FAIL" "" =
      .ok (some 4,
        ⟨⟨[⟨4, "a.csv", "SRC", "d", "FAIL", "", some 9⟩], 5, 77⟩,
         some [("a.csv", 4)], [("a.csv", "FAIL")]⟩) := by
  have h := (C5_existing_any_status_allowed
    ⟨⟨[⟨4, "a.csv", "SRC", "d", "STARTED", "", some 9⟩], 5, 77⟩, none, []⟩
    "src" "a.csv" "d" "FAIL" "" ⟨4, "a.csv", "SRC", "d", "STARTED", "", some 9⟩
    (by decide) (by decide)).1
  rw [h]
  decide

/-- Claim C9: `update_media_import` normalizes the status asymmetrically.
On the creation path the stored status is `status.upper()`; on the update
path the argument is stored verbatim (no uppercasing) and the
`time_imported` stamp fires only when the argument is exactly the
uppercase string `STARTED`. -/
theorem C9_status_normalization_asymmetric
    (st : DbConnState) (ds fn fd status fp : String)
    (hc : cacheFind st.cache fn = none) :
    ((queryImports st.db (pyUpper ds) fn = [] →
      (pyUpper status = "STARTED" ∨ pyUpper status = "SKIPPED") →
      update_media_import st ds fn fd status fp =
        .ok (some st.db.next_id,
          { db := { records := st.db.records ++
                      [⟨st.db.next_id, fn, pyUpper ds, fd, pyUpper status, fp, none⟩],
                    next_id := st.db.next_id + 1,
                    now := st.db.now },
            cache := cacheInsert st.cache fn st.db.next_id,
            log := st.log ++ [(fn, pyUpper status)] })) ∧
     (∀ r : ImportRecord, queryImports st.db (pyUpper ds) fn = [r] →
      update_media_import st ds fn fd status fp =
        .ok (some r.id,
          { db := { records := st.db.records.map (fun x =>
                      if x.id = r.id then
                        { x with
                          status := status,
                          time_imported :=
                            if status = "STARTED" then some st.db.now
                            else x.time_imported }
                      else x),
                    next_id := st.db.next_id,
                    now := st.db.now },
            cache := cacheInsert st.cache fn r.id,
            log := st.log ++ [(fn, status)] }))) := by
  constructor
  · intro hq hs
    exact update_media_import_creates fd status fp hc hq hs
  · intro r hq
    exact (C5_existing_any_status_allowed st ds fn fd status fp r hc hq).1

/-! ### Claim C1: run_ingest_queries marks every listed file, then returns or re-raises -/

/-- Soundness of the identity cache with respect to one data source: every
cached id belongs to the unique stored row of its file name. -/
def cacheConsistent (st : DbConnState) (ds : String) : Prop :=
  ∀ fn importId, cacheFind st.cache fn = some importId →
    ∃ r, queryImports st.db ds fn = [r] ∧ r.id = importId

/-- Relation between a row before and after one pass of the ledger loop:
either untouched or rewritten by `applyStatus`. -/
def setOrKeep (s : String) (now : Nat) (r r' : ImportRecord) : Prop :=
  r' = r ∨ r' = applyStatus s now r

theorem applyStatus_idem (s : String) (now : Nat) (r : ImportRecord) :
    applyStatus s now (applyStatus s now r) = applyStatus s now r := by
  by_cases h : s = "STARTED" <;> simp [applyStatus, h]

theorem setOrKeep_trans {s : String} {now : Nat} {r r' r'' : ImportRecord}
    (h1 : setOrKeep s now r r') (h2 : setOrKeep s now r' r'') : setOrKeep s now r r'' := by
  rcases h1 with rfl | rfl
  · exact h2
  · rcases h2 with rfl | rfl
    · exact Or.inr rfl
    · exact Or.inr (applyStatus_idem s now r)

theorem matchesImport_applyStatus (ds fn s : String) (now : Nat) (x : ImportRecord) :
    matchesImport ds fn (applyStatus s now x) = matchesImport ds fn x := rfl

theorem matchesImport_setOrKeep {ds fn s : String} {now : Nat} {r r' : ImportRecord}
    (h : setOrKeep s now r r') : matchesImport ds fn r' = matchesImport ds fn r := by
  rcases h with rfl | rfl
  · rfl
  · exact matchesImport_applyStatus ds fn s now r

theorem forall2_map_self {α : Type} {R : α → α → Prop} (f : α → α) (h : ∀ x, R x (f x)) :
    ∀ l : List α, List.Forall₂ R l (l.map f)
  | [] => .nil
  | x :: xs => .cons (h x) (forall2_map_self f h xs)

theorem forall2_trans_setOrKeep {s : String} {now : Nat} :
    ∀ {l1 l2 l3 : List ImportRecord}, List.Forall₂ (setOrKeep s now) l1 l2 →
      List.Forall₂ (setOrKeep s now) l2 l3 → List.Forall₂ (setOrKeep s now) l1 l3 := by
  intro l1 l2 l3 h12
  induction h12 generalizing l3 with
  | nil => intro h; exact h
  | cons hab _ ih =>
    intro h23
    cases h23 with
    | cons hbc h' => exact .cons (setOrKeep_trans hab hbc) (ih h')

theorem forall2_filter {α : Type} {R : α → α → Prop} {p : α → Bool}
    (hR : ∀ r r', R r r' → p r' = p r) :
    ∀ {l l' : List α}, List.Forall₂ R l l' → List.Forall₂ R (l.filter p) (l'.filter p) := by
  intro l l' h
  induction h with
  | nil => exact .nil
  | @cons a b l1 l2 hab h ih =>
    rw [List.filter_cons, List.filter_cons, hR _ _ hab]
    by_cases hp : p a = true
    · rw [if_pos hp, if_pos hp]
      exact .cons hab ih
    · rw [if_neg hp, if_neg hp]
      exact ih

theorem filter_map_update {p : ImportRecord → Bool} (importId : Nat) (s : String) (now : Nat)
    (hp : ∀ x, p (applyStatus s now x) = p x) :
    ∀ l : List ImportRecord,
      (l.map (fun x => if x.id = importId then applyStatus s now x else x)).filter p =
        (l.filter p).map (fun x => if x.id = importId then applyStatus s now x else x) := by
  intro l
  induction l with
  | nil => rfl
  | cons a as ih =>
    have hpa : p (if a.id = importId then applyStatus s now a else a) = p a := by
      by_cases h : a.id = importId
      · rw [if_pos h, hp]
      · rw [if_neg h]
    rw [List.map_cons, List.filter_cons, List.filter_cons, hpa]
    by_cases h : p a
    · rw [if_pos h, if_pos h, List.map_cons, ih]
    · rw [if_neg h, if_neg h, ih]

theorem cacheFind_insert (c : Option (List (String × Nat))) (fn fn' : String) (i : Nat) :
    cacheFind (cacheInsert c fn i) fn' = if fn' = fn then some i else cacheFind c fn' := by
  cases c with
  | none =>
    show List.lookup fn' [(fn, i)] = _
    rw [List.lookup]
    by_cases h : fn' = fn
    · rw [beq_iff_eq.mpr h, if_pos h]
    · rw [beq_eq_false_iff_ne.mpr h, if_neg h]
      rfl
  | some m =>
    show List.lookup fn' ((fn, i) :: m) = _
    rw [List.lookup]
    by_cases h : fn' = fn
    · rw [beq_iff_eq.mpr h, if_pos h]
    · rw [beq_eq_false_iff_ne.mpr h, if_neg h]
      rfl

theorem upd_id (importId : Nat) (s : String) (now : Nat) (x : ImportRecord) :
    (if x.id = importId then applyStatus s now x else x).id = x.id := by
  by_cases h : x.id = importId
  · rw [if_pos h]; rfl
  · rw [if_neg h]

theorem queryImports_mapped {db db' : MediaDb} (ds fn' : String) {importId : Nat}
    {s : String} {now : Nat}
    (h : db'.records = db.records.map (fun x =>
      if x.id = importId then applyStatus s now x else x)) :
    queryImports db' ds fn' = (queryImports db ds fn').map (fun x =>
      if x.id = importId then applyStatus s now x else x) := by
  unfold queryImports
  rw [h, filter_map_update]
  intro x
  exact matchesImport_applyStatus ds fn' s now x

theorem update_media_import_step (fd s fp : String)
    {st : DbConnState} {ds fn : String} {r : ImportRecord}
    (hups : pyUpper ds = ds)
    (hcons : cacheConsistent st ds)
    (hq : queryImports st.db ds fn = [r]) :
    ∃ st', update_media_import st ds fn fd s fp = .ok (some r.id, st')
      ∧ st'.db.records = st.db.records.map (fun x =>
          if x.id = r.id then applyStatus s st.db.now x else x)
      ∧ st'.db.now = st.db.now
      ∧ st'.log = st.log ++ [(fn, s)]
      ∧ cacheConsistent st' ds := by
  cases hcf : cacheFind st.cache fn with
  | none =>
    have hq' : queryImports st.db (pyUpper (pyUpper ds)) fn = [r] := by
      rw [pyUpper_idem, hups]; exact hq
    have hget := @get_media_import_id_unique st (pyUpper ds) fn r hcf hq'
    refine ⟨_, update_media_import_existing fd s fp hget, rfl, rfl, rfl, ?_⟩
    intro fn' importId' hfind
    have hmap : queryImports
        ({ db := { records := st.db.records.map (fun x =>
                     if x.id = r.id then applyStatus s st.db.now x else x),
                   next_id := st.db.next_id, now := st.db.now },
           cache := cacheInsert st.cache fn r.id,
           log := st.log ++ [(fn, s)] } : DbConnState).db ds fn' =
        (queryImports st.db ds fn').map (fun x =>
          if x.id = r.id then applyStatus s st.db.now x else x) :=
      queryImports_mapped ds fn' rfl
    rw [cacheFind_insert] at hfind
    by_cases hfn : fn' = fn
    · rw [if_pos hfn] at hfind
      cases hfind
      refine ⟨applyStatus s st.db.now r, ?_, rfl⟩
      rw [hmap, hfn, hq]
      simp
    · rw [if_neg hfn] at hfind
      obtain ⟨r0, hq0, hid0⟩ := hcons fn' importId' hfind
      refine ⟨if r0.id = r.id then applyStatus s st.db.now r0 else r0, ?_, ?_⟩
      · rw [hmap, hq0]
        rfl
      · rw [upd_id, hid0]
  | some importId =>
    obtain ⟨r0, hq0, hid0⟩ := hcons fn importId hcf
    have hr0 : r0 = r := by
      have := hq0.symm.trans hq
      exact (List.cons.injEq r0 [] r []).mp this |>.1
    subst hr0
    have hget := get_media_import_id_cache_hit hcf (pyUpper ds)
    subst hid0
    refine ⟨_, update_media_import_existing fd s fp hget, rfl, rfl, rfl, ?_⟩
    intro fn' importId' hfind
    have hmap : queryImports
        ({ db := { records := st.db.records.map (fun x =>
                     if x.id = r0.id then applyStatus s st.db.now x else x),
                   next_id := st.db.next_id, now := st.db.now },
           cache := st.cache,
           log := st.log ++ [(fn, s)] } : DbConnState).db ds fn' =
        (queryImports st.db ds fn').map (fun x =>
          if x.id = r0.id then applyStatus s st.db.now x else x) :=
      queryImports_mapped ds fn' rfl
    obtain ⟨r1, hq1, hid1⟩ := hcons fn' importId' hfind
    refine ⟨if r1.id = r0.id then applyStatus s st.db.now r1 else r1, ?_, ?_⟩
    · rw [hmap, hq1]
      rfl
    · rw [upd_id, hid1]

theorem forall2_refl_setOrKeep (s : String) (now : Nat) :
    ∀ l : List ImportRecord, List.Forall₂ (setOrKeep s now) l l
  | [] => .nil
  | _ :: xs => .cons (Or.inl rfl) (forall2_refl_setOrKeep s now xs)

theorem runLedgerLoop_marks {ds s : String} (hups : pyUpper ds = ds) :
    ∀ (files : List (String × String)) (st : DbConnState),
    cacheConsistent st ds →
    (∀ p ∈ files, ∃ r, queryImports st.db ds p.1 = [r]) →
    ∃ st', runLedgerLoop st ds s files = (none, st')
      ∧ List.Forall₂ (setOrKeep s st.db.now) st.db.records st'.db.records
      ∧ st'.db.now = st.db.now
      ∧ cacheConsistent st' ds
      ∧ (∀ p ∈ files, ∃ r', queryImports st'.db ds p.1 = [r'] ∧ r'.status = s)
      ∧ st'.log = st.log ++ files.map (fun p => (p.1, s)) := by
  intro files
  induction files with
  | nil =>
    intro st hcons _
    exact ⟨st, rfl, forall2_refl_setOrKeep s st.db.now _, rfl, hcons,
      fun p hp => absurd hp (List.not_mem_nil p), by simp⟩
  | cons p rest ih =>
    obtain ⟨fn, fd⟩ := p
    intro st hcons hq
    obtain ⟨r, hqr⟩ := hq (fn, fd) (List.mem_cons_self _ _)
    obtain ⟨st1, heq, hrec, hnow, hlog, hcons1⟩ :=
      update_media_import_step fd s "" hups hcons hqr
    have hq1 : ∀ p' ∈ rest, ∃ r0, queryImports st1.db ds p'.1 = [r0] := by
      intro p' hp'
      obtain ⟨r0, hq0⟩ := hq p' (List.mem_cons_of_mem _ hp')
      refine ⟨if r0.id = r.id then applyStatus s st.db.now r0 else r0, ?_⟩
      rw [queryImports_mapped ds p'.1 hrec, hq0]
      rfl
    obtain ⟨st2, heq2, hrec2, hnow2, hcons2, hstat2, hlog2⟩ := ih st1 hcons1 hq1
    have hloop : runLedgerLoop st ds s ((fn, fd) :: rest) = (none, st2) := by
      rw [runLedgerLoop, heq]
      exact heq2
    have h1 : List.Forall₂ (setOrKeep s st.db.now) st.db.records st1.db.records := by
      rw [hrec]
      refine forall2_map_self _ (fun x => ?_) _
      by_cases hx : x.id = r.id
      · rw [if_pos hx]; exact Or.inr rfl
      · rw [if_neg hx]; exact Or.inl rfl
    have hrec2' : List.Forall₂ (setOrKeep s st.db.now) st1.db.records st2.db.records := by
      rw [← hnow]; exact hrec2
    refine ⟨st2, hloop, forall2_trans_setOrKeep h1 hrec2', by rw [hnow2, hnow], hcons2, ?_, ?_⟩
    · intro p' hp'
      rcases List.mem_cons.mp hp' with rfl | hmem
      · have hq1h : queryImports st1.db ds fn = [applyStatus s st.db.now r] := by
          rw [queryImports_mapped ds fn hrec, hqr]
          simp
        have hff : List.Forall₂ (setOrKeep s st.db.now)
            (queryImports st1.db ds fn) (queryImports st2.db ds fn) :=
          forall2_filter (fun _ _ h => matchesImport_setOrKeep h) hrec2'
        rw [hq1h] at hff
        rcases List.forall₂_cons_left_iff.mp hff with ⟨b, l2, hxy, htail, hl'⟩
        have hl2 : l2 = [] := by cases htail; rfl
        subst hl2
        refine ⟨b, hl', ?_⟩
        rcases hxy with rfl | rfl
        · rfl
        · rfl
      · exact hstat2 p' hmem
    · rw [hlog2, hlog, List.map_cons, List.append_assoc]
      rfl

/-- Claim C1: `run_ingest_queries`, called with a consistent cache and one
stored row per listed file, performs exactly one ledger write per listed
file in both outcomes (the write trace grows by one entry per file).  If
executing the SQL succeeds the call returns normally and every listed
file's row ends with status `SUCCESS`; if it raises a driver error the
original error is re-raised after the writes and every listed file's row
ends with status `FAIL`. -/
theorem C1_run_ingest_marks_all_files
    (st : DbConnState) (data_source : String) (execResult : Except String Unit)
    (files : List (String × String))
    (hcons : cacheConsistent st (pyUpper data_source))
    (hq : ∀ p ∈ files, ∃ r, queryImports st.db (pyUpper data_source) p.1 = [r]) :
    ∃ st',
      run_ingest_queries st data_source execResult files =
        ((match execResult with | .ok _ => .normal | .error e => .reraised e), st')
      ∧ (∀ p ∈ files, ∃ r', queryImports st'.db (pyUpper data_source) p.1 = [r'] ∧
          r'.status = (match execResult with | .ok _ => "SUCCESS" | .error _ => "FAIL"))
      ∧ st'.log = st.log ++ files.map (fun p =>
          (p.1, (match execResult with | .ok _ => "SUCCESS" | .error _ => "FAIL"))) := by
  cases execResult with
  | ok u =>
    obtain ⟨st', hloop, _, _, _, hstat, hlog⟩ :=
      runLedgerLoop_marks (pyUpper_idem data_source) files st hcons hq
    refine ⟨st', ?_, hstat, hlog⟩
    unfold run_ingest_queries
    rw [hloop]
  | error err =>
    obtain ⟨st', hloop, _, _, _, hstat, hlog⟩ :=
      runLedgerLoop_marks (pyUpper_idem data_source) files st hcons hq
    refine ⟨st', ?_, hstat, hlog⟩
    unfold run_ingest_queries
    rw [hloop]

/-- Witness for C1 at a concrete state: two `STARTED` rows, a failing SQL
execution; the original error is re-raised, both rows end in `FAIL`, and
the write trace gains exactly one entry per listed file. -/
theorem C1_run_ingest_marks_all_files_witness :
    ∃ st',
      run_ingest_queries
          ⟨⟨[⟨1, "a.csv", "SRC", "d", "STARTED", "", none⟩,
             ⟨2, "b.csv", "SRC", "d", "STARTED", "", none⟩], 3, 0⟩, none, []⟩
          "SRC" (.error "boom") [("a.csv", "d"), ("b.csv", "d")] =
        (.reraised "boom", st')
      ∧ (∀ p ∈ ([("a.csv", "d"), ("b.csv", "d")] : List (String × String)),
          ∃ r', queryImports st'.db (pyUpper "SRC") p.1 = [r'] ∧ r'.status = "FAIL")
      ∧ st'.log = ([] : List (String × String)) ++
          ([("a.csv", "d"), ("b.csv", "d")] : List (String × String)).map
            (fun p => (p.1, "FAIL")) := by
  have h := C1_run_ingest_marks_all_files
    ⟨⟨[⟨1, "a.csv", "SRC", "d", "STARTED", "", none⟩,
       ⟨2, "b.csv", "SRC", "d", "STARTED", "", none⟩], 3, 0⟩, none, []⟩
    "SRC" (.error "boom") [("a.csv", "d"), ("b.csv", "d")]
    (fun fn importId hfind => nomatch hfind)
    (by
      intro p hp
      rcases List.mem_cons.mp hp with rfl | hp2
      · exact ⟨⟨1, "a.csv", "SRC", "d", "STARTED", "", none⟩, by decide⟩
      · rcases List.mem_cons.mp hp2 with rfl | hp3
        · exact ⟨⟨2, "b.csv", "SRC", "d", "STARTED", "", none⟩, by decide⟩
        · exact absurd hp3 (List.not_mem_nil p))
  exact h

/-- Witness for C9 at a concrete state: updating an existing record with
the lowercase argument "started" stores the string verbatim and does not
stamp `time_imported`, demonstrating the asymmetry with the create path. -/
theorem C9_status_normalization_asymmetric_witness :
    update_media_import
        ⟨⟨[⟨4, "a.csv", "SRC", "d", "SUCCESS", "", some 9⟩], 5, 77⟩, none, []⟩
        "SRC" "a.csv" "d" "started" "" =
      .ok (some 4,
        ⟨⟨[⟨4, "a.csv", "SRC", "d", "started", "", some 9⟩], 5, 77⟩,
         some [("a.csv", 4)], [("a.csv", "started")]⟩) := by
  have h := (C9_status_normalization_asymmetric
    ⟨⟨[⟨4, "a.csv", "SRC", "d", "SUCCESS", "", some 9⟩], 5, 77⟩, none, []⟩
    "SRC" "a.csv" "d" "started" "" (by decide)).2
    ⟨4, "a.csv", "SRC", "d", "SUCCESS", "", some 9⟩ (by decide)
  rw [h]
  decide

/-! ### SQL template renderer (AmgCursor.execute, amg_cursor.py:9-12) -/

/-- A parameter value as psycopg2 adapts it: `raw` is an `AsIs` fragment
(identifier or pre-built SQL, produced by `no_quotes`) inserted verbatim,
`str` an escaped string literal, `int` a plain integer literal. -/
inductive SqlValue where
  | raw (s : String)
  | str (s : String)
  | int (n : Int)
deriving DecidableEq, Repr

/-- The single-quote character, written via its code point. -/
def squote : Char := Char.ofNat 39

/-- Double every single quote (psycopg2 string-literal escaping). -/
def escapeQuotes : List Char → List Char
  | [] => []
  | c :: cs =>
    if c = squote then squote :: squote :: escapeQuotes cs else c :: escapeQuotes cs

/-- Adapted SQL text of one parameter value. -/
def adapt : SqlValue → List Char
  | .raw s => s.toList
  | .str s => squote :: (escapeQuotes s.toList ++ [squote])
  | .int n => (toString n).toList

abbrev Params := List (String × SqlValue)

/-- Renderer failures: a placeholder without a parameter (the spec's
`MissingParameterError`; psycopg2 raises `KeyError`) or a malformed `%`
sequence. -/
inductive RenderError where
  | missingParameter (name : String)
  | badFormat
deriving DecidableEq, Repr

/-- Scanner state while walking the template: plain text, right after
`%`, inside `%(name`, or right after `%(name)` awaiting the format char. -/
inductive ScanMode where
  | text
  | percent
  | name (acc : List Char)
  | close (acc : List Char)

/-- Character-level model of the psycopg2 placeholder substitution:
`%(name)s` becomes the adapted parameter, `%%` becomes `%`, any other use
of `%` is a format error, and substituted values are never rescanned. -/
def mogrifyGo (ps : Params) : ScanMode → List Char → Except RenderError (List Char)
  | .text, [] => .ok []
  | .text, c :: rest =>
    if c = '%' then mogrifyGo ps .percent rest
    else (mogrifyGo ps .text rest).map (c :: ·)
  | .percent, [] => .error .badFormat
  | .percent, c :: rest =>
    if c = '%' then (mogrifyGo ps .text rest).map ('%' :: ·)
    else if c = '(' then mogrifyGo ps (.name []) rest
    else .error .badFormat
  | .name _, [] => .error .badFormat
  | .name acc, c :: rest =>
    if c = ')' then mogrifyGo ps (.close acc) rest
    else mogrifyGo ps (.name (acc ++ [c])) rest
  | .close _, [] => .error .badFormat
  | .close acc, c :: rest =>
    if c = 's' then
      match ps.lookup acc.asString with
      | some v => (mogrifyGo ps .text rest).map (adapt v ++ ·)
      | none => .error (.missingParameter acc.asString)
    else .error .badFormat

/-- psycopg2 `cursor.mogrify(query, q_vars)`: with `q_vars = None` the
template passes through untouched; otherwise the placeholder machine
runs over it. -/
def mogrify (query : String) (q_vars : Option Params) : Except RenderError String :=
  match q_vars with
  | none => .ok query
  | some ps => (mogrifyGo ps .text query.toList).map List.asString

/-- Placeholder names of a template, walked by the same machine;
`none` on a malformed `%` sequence. -/
def scanGo : ScanMode → List Char → Option (List String)
  | .text, [] => some []
  | .text, c :: rest =>
    if c = '%' then scanGo .percent rest
    else scanGo .text rest
  | .percent, [] => none
  | .percent, c :: rest =>
    if c = '%' then scanGo .text rest
    else if c = '(' then scanGo (.name []) rest
    else none
  | .name _, [] => none
  | .name acc, c :: rest =>
    if c = ')' then scanGo (.close acc) rest
    else scanGo (.name (acc ++ [c])) rest
  | .close _, [] => none
  | .close acc, c :: rest =>
    if c = 's' then (scanGo .text rest).map (acc.asString :: ·)
    else none

/-- Placeholder names of a template string. -/
def scanPlaceholders (query : String) : Option (List String) :=
  scanGo .text query.toList

/-! ### Python 2.7 textwrap.dedent over the char-list view of a string -/

def isSpaceTab (c : Char) : Bool := c = ' ' || c = '\t'

def splitLines : List Char → List (List Char)
  | [] => [[]]
  | c :: cs =>
    if c = '\n' then [] :: splitLines cs
    else
      match splitLines cs with
      | [] => [[c]]
      | l :: ls => (c :: l) :: ls

def joinLines : List (List Char) → List Char
  | [] => []
  | [l] => l
  | l :: ls => l ++ '\n' :: joinLines ls

/-- Step 1 of py2.7 dedent: `_whitespace_only_re.sub('', text)` blanks
every line made solely of spaces and tabs. -/
def normWsLine (l : List Char) : List Char :=
  if !l.isEmpty && l.all isSpaceTab then [] else l

/-- Leading run of spaces and tabs of a line that has a non-whitespace
character (`_leading_whitespace_re`); blank lines contribute nothing. -/
def lineIndent (l : List Char) : Option (List Char) :=
  if l.any (fun c => !isSpaceTab c) then some (l.takeWhile isSpaceTab) else none

def leadsWith : List Char → List Char → Bool
  | [], _ => true
  | _ :: _, [] => false
  | a :: as, b :: bs => a = b && leadsWith as bs

/-- One step of the py2.7 margin fold; a conflict collapses the margin to
`[]`, which then absorbs every later indent (the `break` in the source). -/
def marginStep (m : Option (List Char)) (ind : List Char) : Option (List Char) :=
  match m with
  | none => some ind
  | some mg =>
    if leadsWith mg ind then some mg
    else if leadsWith ind mg then some ind
    else some []

/-- Final line rewrite `re.sub(r'(?m)^' + margin, '', text)`: the margin
is removed from every line that starts with it. -/
def stripMargin (mg : List Char) (l : List Char) : List Char :=
  if leadsWith mg l then l.drop mg.length else l

/-- Python 2.7 `textwrap.dedent` on a char list. -/
def dedentChars (text : List Char) : List Char :=
  let lines := (splitLines text).map normWsLine
  let margin := (lines.filterMap lineIndent).foldl marginStep none
  match margin with
  | some mg => if mg.isEmpty then joinLines lines else joinLines (lines.map (stripMargin mg))
  | none => joinLines lines

def dedent (s : String) : String := (dedentChars s.toList).asString

/-- `AmgCursor.execute` (amg_cursor.py:9-12): the SQL text handed to the
driver is `textwrap.dedent(self.mogrify(query, q_vars))` — substitution
first, dedent applied to the substituted output. -/
def executeFinalSql (query : String) (q_vars : Option Params) : Except RenderError String :=
  (mogrify query q_vars).map dedent

/-- Modelled from the spec (section 4.1 wording, also the wording of
claim C7): a renderer that whitespace-normalizes (dedents) the template
BEFORE substitution.  Kept only to compare against `executeFinalSql`. -/
def renderDedentFirst (query : String) (q_vars : Option Params) : Except RenderError String :=
  mogrify (dedent query) q_vars

theorem mogrifyGo_ok_of_scan (ps : Params) :
    ∀ (l : List Char) (m : ScanMode) (ns : List String),
      scanGo m l = some ns → (∀ n ∈ ns, (ps.lookup n).isSome) →
      ∃ out, mogrifyGo ps m l = .ok out := by
  intro l
  induction l with
  | nil =>
    intro m ns hscan _
    cases m with
    | text => exact ⟨[], rfl⟩
    | percent => simp [scanGo] at hscan
    | name acc => simp [scanGo] at hscan
    | close acc => simp [scanGo] at hscan
  | cons c rest ih =>
    intro m ns hscan hall
    cases m with
    | text =>
      by_cases hc : c = '%'
      · simp only [scanGo, if_pos hc] at hscan
        obtain ⟨out, hout⟩ := ih .percent ns hscan hall
        exact ⟨out, by simp only [mogrifyGo, if_pos hc]; exact hout⟩
      · simp only [scanGo, if_neg hc] at hscan
        obtain ⟨out, hout⟩ := ih .text ns hscan hall
        exact ⟨c :: out, by simp only [mogrifyGo, if_neg hc, hout, Except.map]⟩
    | percent =>
      by_cases hc : c = '%'
      · simp only [scanGo, if_pos hc] at hscan
        obtain ⟨out, hout⟩ := ih .text ns hscan hall
        exact ⟨'%' :: out, by simp only [mogrifyGo, if_pos hc, hout, Except.map]⟩
      · by_cases hp : c = '('
        · simp only [scanGo, if_neg hc, if_pos hp] at hscan
          obtain ⟨out, hout⟩ := ih (.name []) ns hscan hall
          exact ⟨out, by simp only [mogrifyGo, if_neg hc, if_pos hp]; exact hout⟩
        · simp only [scanGo, if_neg hc, if_neg hp] at hscan
          exact Option.noConfusion hscan
    | name acc =>
      by_cases hc : c = ')'
      · simp only [scanGo, if_pos hc] at hscan
        obtain ⟨out, hout⟩ := ih (.close acc) ns hscan hall
        exact ⟨out, by simp only [mogrifyGo, if_pos hc]; exact hout⟩
      · simp only [scanGo, if_neg hc] at hscan
        obtain ⟨out, hout⟩ := ih (.name (acc ++ [c])) ns hscan hall
        exact ⟨out, by simp only [mogrifyGo, if_neg hc]; exact hout⟩
    | close acc =>
      by_cases hc : c = 's'
      · simp only [scanGo, if_pos hc] at hscan
        cases hrest : scanGo .text rest with
        | none =>
          rw [hrest] at hscan
          exact Option.noConfusion hscan
        | some ns' =>
          rw [hrest] at hscan
          simp only [Option.map_some'] at hscan
          cases hscan
          have hacc : (ps.lookup acc.asString).isSome :=
            hall _ (List.mem_cons_self _ _)
          obtain ⟨v, hv⟩ := Option.isSome_iff_exists.mp hacc
          obtain ⟨out, hout⟩ := ih .text ns' hrest
            (fun n hn => hall n (List.mem_cons_of_mem _ hn))
          exact ⟨adapt v ++ out, by
            simp only [mogrifyGo, if_pos hc, hv, hout, Except.map]⟩
      · simp only [scanGo, if_neg hc] at hscan
        exact Option.noConfusion hscan

theorem mogrifyGo_missing_of_scan (ps : Params) :
    ∀ (l : List Char) (m : ScanMode) (ns : List String),
      scanGo m l = some ns → (∃ n ∈ ns, ps.lookup n = none) →
      ∃ n, n ∈ ns ∧ ps.lookup n = none ∧
        mogrifyGo ps m l = .error (.missingParameter n) := by
  intro l
  induction l with
  | nil =>
    intro m ns hscan hmiss
    cases m with
    | text =>
      simp only [scanGo, Option.some.injEq] at hscan
      cases hscan
      obtain ⟨n, hn, -⟩ := hmiss
      exact absurd hn (List.not_mem_nil n)
    | percent => simp [scanGo] at hscan
    | name acc => simp [scanGo] at hscan
    | close acc => simp [scanGo] at hscan
  | cons c rest ih =>
    intro m ns hscan hmiss
    cases m with
    | text =>
      by_cases hc : c = '%'
      · simp only [scanGo, if_pos hc] at hscan
        obtain ⟨n, hn, hnone, herr⟩ := ih .percent ns hscan hmiss
        exact ⟨n, hn, hnone, by simp only [mogrifyGo, if_pos hc]; exact herr⟩
      · simp only [scanGo, if_neg hc] at hscan
        obtain ⟨n, hn, hnone, herr⟩ := ih .text ns hscan hmiss
        exact ⟨n, hn, hnone, by simp only [mogrifyGo, if_neg hc, herr, Except.map]⟩
    | percent =>
      by_cases hc : c = '%'
      · simp only [scanGo, if_pos hc] at hscan
        obtain ⟨n, hn, hnone, herr⟩ := ih .text ns hscan hmiss
        exact ⟨n, hn, hnone, by simp only [mogrifyGo, if_pos hc, herr, Except.map]⟩
      · by_cases hp : c = '('
        · simp only [scanGo, if_neg hc, if_pos hp] at hscan
          obtain ⟨n, hn, hnone, herr⟩ := ih (.name []) ns hscan hmiss
          exact ⟨n, hn, hnone, by simp only [mogrifyGo, if_neg hc, if_pos hp]; exact herr⟩
        · simp only [scanGo, if_neg hc, if_neg hp] at hscan
          exact Option.noConfusion hscan
    | name acc =>
      by_cases hc : c = ')'
      · simp only [scanGo, if_pos hc] at hscan
        obtain ⟨n, hn, hnone, herr⟩ := ih (.close acc) ns hscan hmiss
        exact ⟨n, hn, hnone, by simp only [mogrifyGo, if_pos hc]; exact herr⟩
      · simp only [scanGo, if_neg hc] at hscan
        obtain ⟨n, hn, hnone, herr⟩ := ih (.name (acc ++ [c])) ns hscan hmiss
        exact ⟨n, hn, hnone, by simp only [mogrifyGo, if_neg hc]; exact herr⟩
    | close acc =>
      by_cases hc : c = 's'
      · simp only [scanGo, if_pos hc] at hscan
        cases hrest : scanGo .text rest with
        | none =>
          rw [hrest] at hscan
          exact Option.noConfusion hscan
        | some ns' =>
          rw [hrest] at hscan
          simp only [Option.map_some'] at hscan
          cases hscan
          cases hv : ps.lookup acc.asString with
          | none =>
            exact ⟨acc.asString, List.mem_cons_self _ _, hv, by
              simp only [mogrifyGo, if_pos hc, hv]⟩
          | some v =>
            have hmiss' : ∃ n ∈ ns', ps.lookup n = none := by
              obtain ⟨n, hn, hnone⟩ := hmiss
              rcases List.mem_cons.mp hn with rfl | hn'
              · rw [hv] at hnone; cases hnone
              · exact ⟨n, hn', hnone⟩
            obtain ⟨n, hn, hnone, herr⟩ := ih .text ns' hrest hmiss'
            exact ⟨n, List.mem_cons_of_mem _ hn, hnone, by
              simp only [mogrifyGo, if_pos hc, hv, herr, Except.map]⟩
      · simp only [scanGo, if_neg hc] at hscan
        exact Option.noConfusion hscan

/-- Claim C7 (amended): for every template and parameter mapping, the
rendering step of `AmgCursor.execute` raises `MissingParameterError` when
some placeholder lacks a parameter (never silently emitting an empty
string), and when every placeholder has a parameter it produces exactly
the whitespace-dedent of the substituted template — the dedent is applied
to the rendered SQL AFTER substitution. -/
theorem C7_render_missing_param_or_dedented_output
    (query : String) (ps : Params) (ns : List String)
    (hscan : scanPlaceholders query = some ns) :
    ((∃ n ∈ ns, ps.lookup n = none) →
      ∃ n, n ∈ ns ∧ ps.lookup n = none ∧
        executeFinalSql query (some ps) = .error (.missingParameter n)) ∧
    ((∀ n ∈ ns, (ps.lookup n).isSome) →
      ∃ sql, mogrify query (some ps) = .ok sql ∧
        executeFinalSql query (some ps) = .ok (dedent sql)) := by
  constructor
  · intro hmiss
    obtain ⟨n, hn, hnone, herr⟩ :=
      mogrifyGo_missing_of_scan ps query.toList .text ns hscan hmiss
    refine ⟨n, hn, hnone, ?_⟩
    simp only [executeFinalSql, mogrify, herr, Except.map]
  · intro hall
    obtain ⟨out, hout⟩ := mogrifyGo_ok_of_scan ps query.toList .text ns hscan hall
    refine ⟨out.asString, ?_, ?_⟩
    · simp only [mogrify, hout, Except.map]
    · simp only [executeFinalSql, mogrify, hout, Except.map]

/-- Witness for C7 (amended) at concrete inputs: a template whose
placeholder has no parameter fails with `MissingParameterError`. -/
theorem C7_render_missing_param_or_dedented_output_witness :
    ∃ n, n ∈ ["missing"] ∧ List.lookup n ([("x", SqlValue.raw "t")] : Params) = none ∧
      executeFinalSql "SELECT %(missing)s" (some [("x", SqlValue.raw "t")]) =
        .error (.missingParameter n) :=
  (C7_render_missing_param_or_dedented_output "SELECT %(missing)s"
    [("x", SqlValue.raw "t")] ["missing"] (by decide)).1
    ⟨"missing", by decide, by decide⟩

/-- Counterexample to claim C7 as stated: the code dedents AFTER
substitution (`textwrap.dedent(self.mogrify(query, q_vars))`), not
before.  With a multi-line raw parameter the two orders disagree: the
code leaves the template indentation in place, while dedent-then-render
(the claimed order, `renderDedentFirst`) strips it. -/
theorem C7_counterexample_dedent_order :
    executeFinalSql "  a\n  %(x)s" (some [("x", SqlValue.raw "b\nc")]) =
      .ok "  a\n  b\nc" ∧
    renderDedentFirst "  a\n  %(x)s" (some [("x", SqlValue.raw "b\nc")]) =
      .ok "a\nb\nc" ∧
    (Except.ok "  a\n  b\nc" : Except RenderError String) ≠ .ok "a\nb\nc" := by
  refine ⟨by decide, by decide, by decide⟩

/-! ### Configuration bootstrap (DbConnection.from_yaml, db_connection.py:18-42) -/

/-- Parsed YAML values, restricted to the shapes the config file uses. -/
inductive Yaml where
  | str (s : String)
  | nat (n : Nat)
  | bool (b : Bool)
  | map (entries : List (String × Yaml))

/-- Dictionary indexing `info[key]`; `none` models the `KeyError` /
`TypeError` Python would raise. -/
def yamlGet : Yaml → String → Option Yaml
  | .map es, k => es.lookup k
  | _, _ => none

/-- Configuration-time failure: a missing key (Python `KeyError`). -/
inductive ConfigError where
  | keyError (k : String)
deriving DecidableEq, Repr

/-- The keyword arguments `from_yaml` hands to the `DbConnection`
constructor. -/
structure DbConfig where
  host : Yaml
  database : Yaml
  user : Yaml
  password : Yaml
  port : Yaml
  autocommit : Yaml

/-- `info[scope]` iterated over the scope path
(`for scope in yaml_scope: info = info[scope]`). -/
def scopeResolve : Yaml → List String → Except ConfigError Yaml
  | y, [] => .ok y
  | y, s :: rest =>
    match yamlGet y s with
    | some v => scopeResolve v rest
    | none => .error (.keyError s)

/-- Mandatory dictionary access `info[k]`. -/
def requireKey (info : Yaml) (k : String) : Except ConfigError Yaml :=
  match yamlGet info k with
  | some v => .ok v
  | none => .error (.keyError k)

/-- `DbConnection.from_yaml` (db_connection.py:18-42): `host`, `database`
and `password` are mandatory lookups, while the user is read from the key
`username` with default the empty string, `port` defaults to 5432 and
`autocommit` to `DEFAULT_AUTOCOMMIT = True`. -/
def from_yaml (root : Yaml) (yaml_scope : List String) : Except ConfigError DbConfig := do
  let info ← scopeResolve root yaml_scope
  let host ← requireKey info "host"
  let database ← requireKey info "database"
  let user := (yamlGet info "username").getD (.str "")
  let password ← requireKey info "password"
  let port := (yamlGet info "port").getD (.nat 5432)
  let autocommit := (yamlGet info "autocommit").getD (.bool true)
  return { host, database, user, password, port, autocommit }

/-- Claim C8 fails on the code (the docstring of `from_yaml` and the spec
list `user` and `port` as required): a scoped section carrying only
`host`, `database` and `password` starts up fine, with `user = ""` and
`port = 5432` silently substituted — only `host`, `database` and
`password` actually fail when missing. -/
theorem C8_missing_user_and_port_do_not_fail :
    from_yaml (.map [("larry", .map [("host", .str "h"), ("database", .str "d"),
        ("password", .str "p")])]) ["larry"] =
      .ok ⟨.str "h", .str "d", .str "", .str "p", .nat 5432, .bool true⟩ ∧
    from_yaml (.map [("larry", .map [("database", .str "d"), ("password", .str "p")])])
        ["larry"] =
      .error (.keyError "host") := by
  constructor <;> rfl

/-! ### Upsert generator (AmgCursor.upsert, amg_cursor.py:63-176) -/

/-- Modelled from the spec: `no_quotes` is defined outside src/ (only its
call sites appear there); section 4.1 describes raw parameters as
identifier fragments "inserted verbatim after a cosmetic strip of quote
characters". -/
def no_quotes (s : String) : SqlValue :=
  .raw ((s.toList.filter (fun c => !(c = squote || c = '"'))).asString)

/-- Arguments of `AmgCursor.upsert`.  `col_functions` is the Python dict
(`None` becomes the empty list; the source also coerces bare values into
one-element lists, which the typed field makes implicit). -/
structure UpsertArgs where
  source_table : String
  target_table : String
  uniqueness_keys : List String
  col_list : List String
  col_functions : List (String × List String)
  has_timestamps : Bool

/-- `col_functions.get(col, [])`. -/
def colFns (cf : List (String × List String)) (col : String) : List String :=
  (cf.lookup col).getD []

/-- One wrap step, the Python format `'{0}({1})'` of a function name
around an expression. -/
def wrapFunction (function expr : String) : String :=
  function ++ "(" ++ expr ++ ")"

/-- The inner loop `for function in col_functions.get(col, [])`: each
listed function wraps the expression built so far, so the first function
of the list sits innermost. -/
def applyFunctions (fns : List String) (expr : String) : String :=
  fns.foldl (fun expr function => wrapFunction function expr) expr

/-- The wrap loops of `upsert` (amg_cursor.py:103-119): every expression
is wrapped by the functions of the column name at its position. -/
def wrapColumns (cf : List (String × List String)) (names exprs : List String) : List String :=
  List.zipWith (fun col expr => applyFunctions (colFns cf col) expr) names exprs

/-- Python `'{0}.{1}'.format(table, col)`. -/
def fmtDot (t col : String) : String := t ++ "." ++ col

def targetCols (a : UpsertArgs) : List String := a.col_list.map (fmtDot a.target_table)

def sourceCols (a : UpsertArgs) : List String := a.col_list.map (fun col => "s." ++ col)

def targetUniqueCols (a : UpsertArgs) : List String :=
  a.uniqueness_keys.map (fmtDot a.target_table)

def sourceUniqueCols (a : UpsertArgs) : List String :=
  a.uniqueness_keys.map (fun col => "s." ++ col)

def targetColsFn (a : UpsertArgs) : List String :=
  wrapColumns a.col_functions a.col_list (targetCols a)

def sourceColsFn (a : UpsertArgs) : List String :=
  wrapColumns a.col_functions a.col_list (sourceCols a)

def targetUniqueColsFn (a : UpsertArgs) : List String :=
  wrapColumns a.col_functions a.uniqueness_keys (targetUniqueCols a)

def sourceUniqueColsFn (a : UpsertArgs) : List String :=
  wrapColumns a.col_functions a.uniqueness_keys (sourceUniqueCols a)

/-- `'%s = %s' % (target_unique_cols_fn[idx], source_unique_cols_fn[idx])`. -/
def uniquePredicates (a : UpsertArgs) : List String :=
  List.zipWith (fun t s => t ++ " = " ++ s) (targetUniqueColsFn a) (sourceUniqueColsFn a)

/-- `'%s = %s' % (target_cols_fn[idx], source_cols_fn[idx])`. -/
def identicalRowPredicates (a : UpsertArgs) : List String :=
  List.zipWith (fun t s => t ++ " = " ++ s) (targetColsFn a) (sourceColsFn a)

/-- `'%s = %s' % (col_list[idx], source_cols_fn[idx])`, plus the
unconditional `updated_at = GETDATE()` when timestamps are enabled. -/
def updateClauses (a : UpsertArgs) : List String :=
  (List.zipWith (fun col s => col ++ " = " ++ s) a.col_list (sourceColsFn a)) ++
    (if a.has_timestamps then ["updated_at = GETDATE()"] else [])

/-- `col_list += ['created_at', 'updated_at']` on the timestamps branch. -/
def insertColList (a : UpsertArgs) : List String :=
  a.col_list ++ (if a.has_timestamps then ["created_at", "updated_at"] else [])

/-- `source_cols_fn += ['GETDATE()', 'GETDATE()']` on the timestamps
branch. -/
def insertSourceCols (a : UpsertArgs) : List String :=
  sourceColsFn a ++ (if a.has_timestamps then ["GETDATE()", "GETDATE()"] else [])

/-- Python `sep.join(parts)`. -/
def joinWith (sep : String) : List String → String
  | [] => ""
  | [x] => x
  | x :: xs => x ++ sep ++ joinWith sep xs

/-- The predicate separator `'\n                AND '` (16 spaces). -/
def andSep : String := "\n                AND "

/-- The params dict built by `upsert` (amg_cursor.py:138-150).  On an
empty `uniqueness_keys` the Python indexing `uniqueness_keys[0]` raises
`IndexError`; the model uses `headD ""` and the theorems assume the list
is nonempty. -/
def upsertParams (a : UpsertArgs) : Params :=
  [("source_table", no_quotes a.source_table),
   ("target_table", no_quotes a.target_table),
   ("target_cols", no_quotes (joinWith ", " (insertColList a))),
   ("source_cols", no_quotes (joinWith ", " (insertSourceCols a))),
   ("unique_predicates", no_quotes (joinWith andSep (uniquePredicates a))),
   ("identical_row_predicate", no_quotes (joinWith andSep (identicalRowPredicates a))),
   ("update_clause", no_quotes (joinWith ", " (updateClauses a))),
   ("a_join_key", no_quotes (fmtDot a.target_table (a.uniqueness_keys.headD "")))]

/-- The UPDATE template of `upsert` (amg_cursor.py:155-162), byte for
byte including the triple-quoted indentation. -/
def updateTemplate : String :=
  "\n            -- Update target records that are already present.\n            UPDATE %(target_table)s\n            SET %(update_clause)s\n            FROM %(source_table)s s\n            WHERE (%(unique_predicates)s)\n                AND NOT (%(identical_row_predicate)s)\n            "

/-- The INSERT template of `upsert` (amg_cursor.py:166-174). -/
def insertTemplate : String :=
  "\n            -- Insert new records, that are not already present.\n            INSERT INTO %(target_table)s (%(target_cols)s)\n            SELECT DISTINCT %(source_cols)s\n            FROM %(source_table)s s\n            LEFT JOIN %(target_table)s ON %(unique_predicates)s\n            WHERE %(a_join_key)s IS NULL\n            "

/-- One templated statement handed to `AmgCursor.execute`. -/
structure UpsertQuery where
  template : String
  params : Params

/-- `AmgCursor.upsert`: the statements it executes, in execution order —
the UPDATE first, then the INSERT, both over the same params dict. -/
def upsert (a : UpsertArgs) : List UpsertQuery :=
  [⟨updateTemplate, upsertParams a⟩, ⟨insertTemplate, upsertParams a⟩]

/-- The final SQL strings `upsert` sends to the driver, in order (each
statement rendered by `AmgCursor.execute`). -/
def upsertFinalSql (a : UpsertArgs) : Except RenderError (List String) :=
  (upsert a).mapM (fun q => executeFinalSql q.template (some q.params))

theorem zipWith_map_same {α β γ δ : Type} (k : β → γ → δ) (f : α → β) (g : α → γ) :
    ∀ l : List α, List.zipWith k (l.map f) (l.map g) = l.map (fun x => k (f x) (g x))
  | [] => rfl
  | x :: xs => by
    simp only [List.map_cons, List.zipWith_cons_cons, zipWith_map_same k f g xs]

theorem zipWith_self_map {α β γ : Type} (k : α → β → γ) (g : α → β) :
    ∀ l : List α, List.zipWith k l (l.map g) = l.map (fun x => k x (g x)) := by
  intro l
  induction l with
  | nil => rfl
  | cons x xs ih => simp only [List.map_cons, List.zipWith_cons_cons, ih]

theorem wrapColumns_map (cf : List (String × List String)) (f : String → String)
    (l : List String) :
    wrapColumns cf l (l.map f) = l.map (fun col => applyFunctions (colFns cf col) (f col)) :=
  zipWith_self_map _ f l

/-- Claim C2: each column expression is wrapped by its configured
functions in sequence, innermost-first — the uniqueness predicates and
the identical-row predicates wrap both the target side and the source
side, while the update clause wraps the source side only, leaving the
bare column name on the left. -/
theorem C2_column_functions_wrap_innermost_first (a : UpsertArgs) :
    identicalRowPredicates a = a.col_list.map (fun col =>
      applyFunctions (colFns a.col_functions col) (a.target_table ++ "." ++ col) ++ " = " ++
        applyFunctions (colFns a.col_functions col) ("s." ++ col)) ∧
    uniquePredicates a = a.uniqueness_keys.map (fun col =>
      applyFunctions (colFns a.col_functions col) (a.target_table ++ "." ++ col) ++ " = " ++
        applyFunctions (colFns a.col_functions col) ("s." ++ col)) ∧
    updateClauses a = a.col_list.map (fun col =>
      col ++ " = " ++ applyFunctions (colFns a.col_functions col) ("s." ++ col)) ++
      (if a.has_timestamps then ["updated_at = GETDATE()"] else []) ∧
    (∀ (fns : List String) (f expr : String),
      applyFunctions (fns ++ [f]) expr = f ++ "(" ++ applyFunctions fns expr ++ ")") ∧
    applyFunctions ["TRIM", "UPPER"] "name" = "UPPER(TRIM(name))" := by
  refine ⟨?_, ?_, ?_, ?_, rfl⟩
  · unfold identicalRowPredicates targetColsFn sourceColsFn targetCols sourceCols
    rw [wrapColumns_map, wrapColumns_map, zipWith_map_same]
    simp only [fmtDot]
  · unfold uniquePredicates targetUniqueColsFn sourceUniqueColsFn
      targetUniqueCols sourceUniqueCols
    rw [wrapColumns_map, wrapColumns_map, zipWith_map_same]
    simp only [fmtDot]
  · unfold updateClauses sourceColsFn sourceCols
    rw [wrapColumns_map, zipWith_self_map]
  · intro fns f expr
    simp only [applyFunctions, List.foldl_append, List.foldl_cons, List.foldl_nil]
    rfl

/-! ### Line-level characterization of dedent, toward claim C3 -/

theorem splitLines_no_newline :
    ∀ l : List Char, (∀ c ∈ l, c ≠ '\n') → splitLines l = [l] := by
  intro l h
  induction l with
  | nil => rfl
  | cons c cs ih =>
    have hc : c ≠ '\n' := h c (List.mem_cons_self _ _)
    rw [splitLines, if_neg hc, ih (fun x hx => h x (List.mem_cons_of_mem _ hx))]

theorem splitLines_append_newline :
    ∀ (l r : List Char), (∀ c ∈ l, c ≠ '\n') →
      splitLines (l ++ '\n' :: r) = l :: splitLines r := by
  intro l r h
  induction l with
  | nil => simp [splitLines]
  | cons c cs ih =>
    have hc : c ≠ '\n' := h c (List.mem_cons_self _ _)
    rw [List.cons_append, splitLines, if_neg hc,
      ih (fun x hx => h x (List.mem_cons_of_mem _ hx))]

theorem joinLines_cons_cons (l l2 : List Char) (ls : List (List Char)) :
    joinLines (l :: l2 :: ls) = l ++ '\n' :: joinLines (l2 :: ls) := rfl

theorem splitLines_joinLines :
    ∀ lines : List (List Char), lines ≠ [] →
      (∀ l ∈ lines, ∀ c ∈ l, c ≠ '\n') →
      splitLines (joinLines lines) = lines := by
  intro lines
  induction lines with
  | nil => intro h; exact absurd rfl h
  | cons l ls ih =>
    intro _ hnl
    cases ls with
    | nil =>
      show splitLines (joinLines [l]) = [l]
      exact splitLines_no_newline l (hnl l (List.mem_cons_self _ _))
    | cons l2 ls2 =>
      rw [joinLines_cons_cons, splitLines_append_newline _ _
        (hnl l (List.mem_cons_self _ _))]
      rw [ih (by simp) (fun x hx c hc => hnl x (List.mem_cons_of_mem _ hx) c hc)]

/-- The twelve-space margin of the upsert templates. -/
def m12c : List Char := "            ".toList

/-- The sixteen-space continuation indent of the predicate separator. -/
def m16c : List Char := "                ".toList

theorem leadsWith_self_append : ∀ l t : List Char, leadsWith l (l ++ t) = true := by
  intro l t
  induction l with
  | nil => rfl
  | cons c cs ih => simp [leadsWith, ih]

theorem stripMargin_append (t : List Char) : stripMargin m12c (m12c ++ t) = t := by
  rw [stripMargin, if_pos (leadsWith_self_append m12c t)]
  exact List.drop_left m12c t

theorem margin_fold_keeps :
    ∀ inds : List (List Char), (∀ i ∈ inds, leadsWith m12c i = true) →
      List.foldl marginStep (some m12c) inds = some m12c := by
  intro inds h
  induction inds with
  | nil => rfl
  | cons i is ih =>
    rw [List.foldl_cons]
    have : marginStep (some m12c) i = some m12c := by
      rw [marginStep, if_pos (h i (List.mem_cons_self _ _))]
    rw [this]
    exact ih (fun x hx => h x (List.mem_cons_of_mem _ hx))

theorem takeWhile_append_all {p : Char → Bool} :
    ∀ {l1 : List Char} (l2 : List Char), (∀ x ∈ l1, p x = true) →
      (l1 ++ l2).takeWhile p = l1 ++ l2.takeWhile p := by
  intro l1
  induction l1 with
  | nil => intro l2 _; rfl
  | cons c cs ih =>
    intro l2 h
    simp only [List.cons_append, List.takeWhile_cons, h c (List.mem_cons_self _ _), if_true]
    rw [ih l2 (fun x hx => h x (List.mem_cons_of_mem _ hx))]

theorem lineIndent_of_m12 (l t : List Char) (hl : l = m12c ++ t) :
    ∀ i, lineIndent l = some i → leadsWith m12c i = true := by
  intro i hi
  subst hl
  by_cases h : (m12c ++ t).any (fun c => !isSpaceTab c) = true
  · rw [lineIndent, if_pos h] at hi
    cases hi
    rw [takeWhile_append_all t (by decide)]
    exact leadsWith_self_append m12c _
  · rw [lineIndent, if_neg h] at hi
    exact Option.noConfusion hi

theorem dedent_strips_margin (lines : List (List Char))
    (hnl : ∀ l ∈ lines, ∀ c ∈ l, c ≠ '\n')
    (hne : lines ≠ [])
    (hsh : ∀ l ∈ lines, l = [] ∨ ∃ t, l = m12c ++ t)
    (inds : List (List Char))
    (hpin : (lines.map normWsLine).filterMap lineIndent = m12c :: inds) :
    dedentChars (joinLines lines) =
      joinLines ((lines.map normWsLine).map (stripMargin m12c)) := by
  have hminds : ∀ i ∈ inds, leadsWith m12c i = true := by
    intro i hi
    have hmem : i ∈ (lines.map normWsLine).filterMap lineIndent := by
      rw [hpin]; exact List.mem_cons_of_mem _ hi
    obtain ⟨l', hl', hind⟩ := List.mem_filterMap.mp hmem
    obtain ⟨l, hl, rfl⟩ := List.mem_map.mp hl'
    rcases hsh l hl with rfl | ⟨t, rfl⟩
    · simp [normWsLine, lineIndent] at hind
    · by_cases hw : (!(m12c ++ t).isEmpty && (m12c ++ t).all isSpaceTab) = true
      · rw [normWsLine, if_pos hw] at hind
        simp [lineIndent] at hind
      · rw [normWsLine, if_neg hw] at hind
        exact lineIndent_of_m12 _ t rfl i hind
  have hfold : (((lines.map normWsLine).filterMap lineIndent).foldl marginStep none) =
      some m12c := by
    rw [hpin, List.foldl_cons]
    exact margin_fold_keeps inds hminds
  simp only [dedentChars, splitLines_joinLines lines hne hnl, hfold]
  rfl

/-! ### Segment view of the two upsert templates -/

/-- A template piece: literal text or a `%(name)s` placeholder. -/
inductive Tseg where
  | lit (s : List Char)
  | ph (name : List Char)

/-- Well-formed piece: literals carry no `%`, names no `)`. -/
def segOk : Tseg → Prop
  | .lit s => ∀ c ∈ s, c ≠ '%'
  | .ph n => ∀ c ∈ n, c ≠ ')'

/-- Direct substitution over a segment list. -/
def renderSegs (ps : Params) : List Tseg → Except RenderError (List Char)
  | [] => .ok []
  | .lit s :: rest => (renderSegs ps rest).map (s ++ ·)
  | .ph n :: rest =>
    match ps.lookup n.asString with
    | some v => (renderSegs ps rest).map (adapt v ++ ·)
    | none => .error (.missingParameter n.asString)

/-- The raw template text of a segment list. -/
def segsToChars : List Tseg → List Char
  | [] => []
  | .lit s :: rest => s ++ segsToChars rest
  | .ph n :: rest => '%' :: '(' :: (n ++ ')' :: 's' :: segsToChars rest)

theorem mogrify_text_segment (ps : Params) :
    ∀ (pre : List Char), (∀ c ∈ pre, c ≠ '%') → ∀ (rest : List Char),
      mogrifyGo ps .text (pre ++ rest) = (mogrifyGo ps .text rest).map (pre ++ ·) := by
  intro pre
  induction pre with
  | nil =>
    intro _ rest
    rw [List.nil_append]
    cases h : mogrifyGo ps .text rest with
    | ok t => simp [h, Except.map]
    | error e => simp [h, Except.map]
  | cons c cs ih =>
    intro hpre rest
    have hc : c ≠ '%' := hpre c (List.mem_cons_self _ _)
    rw [List.cons_append]
    rw [show mogrifyGo ps .text (c :: (cs ++ rest)) =
      (mogrifyGo ps .text (cs ++ rest)).map (c :: ·) by
        simp only [mogrifyGo, if_neg hc]]
    rw [ih (fun x hx => hpre x (List.mem_cons_of_mem _ hx)) rest]
    cases mogrifyGo ps .text rest with
    | ok t => simp [Except.map]
    | error e => simp [Except.map]

theorem mogrify_name_segment (ps : Params) :
    ∀ (name : List Char), (∀ c ∈ name, c ≠ ')') → ∀ (acc rest : List Char),
      mogrifyGo ps (.name acc) (name ++ ')' :: 's' :: rest) =
        (match ps.lookup (acc ++ name).asString with
         | some v => (mogrifyGo ps .text rest).map (adapt v ++ ·)
         | none => .error (.missingParameter (acc ++ name).asString)) := by
  intro name
  induction name with
  | nil =>
    intro _ acc rest
    rw [List.nil_append, List.append_nil]
    simp [mogrifyGo]
  | cons c cs ih =>
    intro hn acc rest
    have hc : c ≠ ')' := hn c (List.mem_cons_self _ _)
    rw [List.cons_append]
    rw [show mogrifyGo ps (.name acc) (c :: (cs ++ ')' :: 's' :: rest)) =
      mogrifyGo ps (.name (acc ++ [c])) (cs ++ ')' :: 's' :: rest) by
        simp only [mogrifyGo, if_neg hc]]
    rw [ih (fun x hx => hn x (List.mem_cons_of_mem _ hx)) (acc ++ [c]) rest]
    rw [List.append_assoc, List.singleton_append]

theorem mogrifyGo_segs (ps : Params) :
    ∀ segs : List Tseg, (∀ seg ∈ segs, segOk seg) →
      mogrifyGo ps .text (segsToChars segs) = renderSegs ps segs := by
  intro segs
  induction segs with
  | nil => intro _; rfl
  | cons seg rest ih =>
    intro hok
    have hrest := fun s hs => hok s (List.mem_cons_of_mem _ hs)
    cases seg with
    | lit s =>
      rw [segsToChars, mogrify_text_segment ps s (hok _ (List.mem_cons_self _ _)),
        ih hrest]
      rfl
    | ph n =>
      rw [segsToChars]
      rw [show mogrifyGo ps .text ('%' :: '(' :: (n ++ ')' :: 's' :: segsToChars rest)) =
        mogrifyGo ps (.name []) (n ++ ')' :: 's' :: segsToChars rest) by
          simp [mogrifyGo]]
      rw [mogrify_name_segment ps n (hok _ (List.mem_cons_self _ _)) [] (segsToChars rest),
        List.nil_append]
      rw [renderSegs]
      cases ps.lookup n.asString with
      | some v => rw [ih hrest]
      | none => rfl

/-! ### Identifier plainness (no newline, no quote characters) -/

def plainChar (c : Char) : Bool := !(c = '\n' || c = squote || c = '"')

def plainStr (s : String) : Bool := s.toList.all plainChar

def noQuoteChar (c : Char) : Bool := !(c = squote || c = '"')

theorem data_append (a b : String) : (a ++ b).toList = a.toList ++ b.toList := by
  cases a
  cases b
  rfl

theorem all_append_str (p : Char → Bool) (a b : String)
    (ha : a.toList.all p = true) (hb : b.toList.all p = true) :
    (a ++ b).toList.all p = true := by
  rw [data_append, List.all_append, ha, hb]
  rfl

theorem all_joinWith (p : Char → Bool) (sep : String) (hsep : sep.toList.all p = true) :
    ∀ l : List String, (∀ x ∈ l, x.toList.all p = true) →
      (joinWith sep l).toList.all p = true := by
  intro l
  induction l with
  | nil => intro _; rfl
  | cons x xs ih =>
    intro h
    cases xs with
    | nil => exact h x (List.mem_cons_self _ _)
    | cons y ys =>
      show ((x ++ sep ++ joinWith sep (y :: ys)).toList.all p) = true
      refine all_append_str p _ _ (all_append_str p _ _ ?_ hsep) ?_
      · exact h x (List.mem_cons_self _ _)
      · exact ih (fun z hz => h z (List.mem_cons_of_mem _ hz))

theorem all_applyFunctions (p : Char → Bool)
    (hpar : p '(' = true ∧ p ')' = true) :
    ∀ (fns : List String) (e : String), (∀ f ∈ fns, f.toList.all p = true) →
      e.toList.all p = true → (applyFunctions fns e).toList.all p = true := by
  intro fns
  induction fns with
  | nil => intro e _ he; exact he
  | cons f fs ih =>
    intro e h he
    show ((applyFunctions fs (wrapFunction f e)).toList.all p) = true
    refine ih _ (fun g hg => h g (List.mem_cons_of_mem _ hg)) ?_
    refine all_append_str p _ _ (all_append_str p _ _ (all_append_str p _ _ ?_ ?_) ?_) ?_
    · exact h f (List.mem_cons_self _ _)
    · simp [hpar.1]
    · exact he
    · simp [hpar.2]

theorem asString_toList (s : String) : s.toList.asString = s := rfl

theorem no_quotes_of_noQuote (s : String) (h : s.toList.all noQuoteChar = true) :
    no_quotes s = .raw s := by
  unfold no_quotes
  congr 1
  have : s.toList.filter (fun c => !(c = squote || c = '"')) = s.toList := by
    rw [List.filter_eq_self]
    intro c hc
    exact (List.all_eq_true.mp h) c hc
  rw [this, asString_toList]

theorem plainChar_noQuote {c : Char} (h : plainChar c = true) : noQuoteChar c = true := by
  unfold plainChar at h
  unfold noQuoteChar
  by_cases h1 : c = squote
  · rw [h1] at h; simp at h
  · by_cases h2 : c = '"'
    · rw [h2] at h; simp at h
    · simp [h1, h2]

theorem plainChar_not_newline {c : Char} (h : plainChar c = true) : c ≠ '\n' := by
  intro hc
  rw [hc] at h
  simp [plainChar] at h

theorem plain_all_noQuote {s : String} (h : plainStr s = true) :
    s.toList.all noQuoteChar = true := by
  rw [List.all_eq_true]
  intro c hc
  exact plainChar_noQuote ((List.all_eq_true.mp h) c hc)

theorem plain_no_newline {s : String} (h : plainStr s = true) :
    ∀ c ∈ s.toList, c ≠ '\n' := by
  intro c hc
  exact plainChar_not_newline ((List.all_eq_true.mp h) c hc)

/-! ### Char-level joins and the AND-chain line structure -/

def joinChars (sep : List Char) : List (List Char) → List Char
  | [] => []
  | [x] => x
  | x :: xs => x ++ sep ++ joinChars sep xs

theorem toList_joinWith (sep : String) :
    ∀ l : List String, (joinWith sep l).toList = joinChars sep.toList (l.map String.toList) := by
  intro l
  induction l with
  | nil => rfl
  | cons x xs ih =>
    cases xs with
    | nil => rfl
    | cons y ys =>
      show (x ++ sep ++ joinWith sep (y :: ys)).toList = _
      rw [data_append, data_append, ih]
      rfl

/-- The lines that a `first ++ <p AND-joined ps> ++ close` fragment
produces, with `cont` the continuation-line prefix. -/
def chainLines (cont : List Char) : List Char → List Char → List (List Char) → List Char →
    List (List Char)
  | first, p, [], close => [first ++ p ++ close]
  | first, p, q :: qs, close => (first ++ p) :: chainLines cont cont q qs close

theorem chainLines_ne_nil (cont first p : List Char) (qs : List (List Char)) (close : List Char) :
    chainLines cont first p qs close ≠ [] := by
  cases qs <;> simp [chainLines]

theorem joinLines_cons_of_ne (l : List Char) (ls : List (List Char)) (h : ls ≠ []) :
    joinLines (l :: ls) = l ++ '\n' :: joinLines ls := by
  cases ls with
  | nil => exact absurd rfl h
  | cons l2 ls2 => rfl

theorem joinLines_append (l1 l2 : List (List Char)) (h1 : l1 ≠ []) (h2 : l2 ≠ []) :
    joinLines (l1 ++ l2) = joinLines l1 ++ '\n' :: joinLines l2 := by
  induction l1 with
  | nil => exact absurd rfl h1
  | cons x xs ih =>
    cases xs with
    | nil =>
      rw [List.singleton_append, joinLines_cons_of_ne x l2 h2]
      rfl
    | cons y ys =>
      rw [List.cons_append, joinLines_cons_of_ne x ((y :: ys) ++ l2) (by simp),
        joinLines_cons_of_ne x (y :: ys) (by simp), ih (by simp)]
      simp [List.append_assoc]

theorem andSep_toList : andSep.toList = '\n' :: ("                AND ".toList) := by decide

theorem joinLines_chain (sepTail : List Char) :
    ∀ (qs : List (List Char)) (first p close : List Char),
      joinLines (chainLines sepTail first p qs close) =
        first ++ joinChars ('\n' :: sepTail) (p :: qs) ++ close := by
  intro qs
  induction qs with
  | nil =>
    intro first p close
    rfl
  | cons q qs' ih =>
    intro first p close
    rw [chainLines, joinLines_cons_of_ne _ _ (chainLines_ne_nil _ _ _ _ _), ih]
    show _ = first ++ (p ++ ('\n' :: sepTail) ++ joinChars ('\n' :: sepTail) (q :: qs')) ++ close
    simp [List.append_assoc]

/-- A line with a visible character survives the whitespace-only rewrite. -/
theorem normWs_keep (l : List Char) (h : ∃ c ∈ l, isSpaceTab c = false) :
    normWsLine l = l := by
  unfold normWsLine
  obtain ⟨c, hc, hcf⟩ := h
  have : l.all isSpaceTab = false := by
    rw [List.all_eq_false]
    exact ⟨c, hc, by rw [hcf]; decide⟩
  rw [this]
  simp

theorem m16c_split : m16c = m12c ++ "    ".toList := by decide

theorem strip_line_m12 (t : List Char) (h : ∃ c ∈ t, isSpaceTab c = false) :
    stripMargin m12c (normWsLine (m12c ++ t)) = t := by
  rw [normWs_keep (m12c ++ t) (by
    obtain ⟨c, hc, hcf⟩ := h
    exact ⟨c, List.mem_append_right _ hc, hcf⟩)]
  exact stripMargin_append t

theorem chain_strip (contTail : List Char) (hcont : ∃ c ∈ contTail, isSpaceTab c = false) :
    ∀ (qs : List (List Char)) (f p close : List Char), (∃ c ∈ f, isSpaceTab c = false) →
      (chainLines (m12c ++ contTail) (m12c ++ f) p qs close).map
          (fun l => stripMargin m12c (normWsLine l)) =
        chainLines contTail f p qs close := by
  intro qs
  induction qs with
  | nil =>
    intro f p close hf
    show [stripMargin m12c (normWsLine (m12c ++ f ++ p ++ close))] = [f ++ p ++ close]
    rw [List.append_assoc, List.append_assoc]
    rw [strip_line_m12 (f ++ (p ++ close)) (by
      obtain ⟨c, hc, hcf⟩ := hf
      exact ⟨c, List.mem_append_left _ hc, hcf⟩)]
    rw [List.append_assoc]
  | cons q qs' ih =>
    intro f p close hf
    show (stripMargin m12c (normWsLine (m12c ++ f ++ p))) :: _ = (f ++ p) :: _
    rw [List.append_assoc]
    rw [strip_line_m12 (f ++ p) (by
      obtain ⟨c, hc, hcf⟩ := hf
      exact ⟨c, List.mem_append_left _ hc, hcf⟩)]
    rw [ih contTail q close hcont]

/-! ### The two templates as segment lists -/

def updateSegs : List Tseg :=
  [.lit "\n            -- Update target records that are already present.\n            UPDATE ".toList,
   .ph "target_table".toList,
   .lit "\n            SET ".toList,
   .ph "update_clause".toList,
   .lit "\n            FROM ".toList,
   .ph "source_table".toList,
   .lit " s\n            WHERE (".toList,
   .ph "unique_predicates".toList,
   .lit ")\n                AND NOT (".toList,
   .ph "identical_row_predicate".toList,
   .lit ")\n            ".toList]

def insertSegs : List Tseg :=
  [.lit "\n            -- Insert new records, that are not already present.\n            INSERT INTO ".toList,
   .ph "target_table".toList,
   .lit " (".toList,
   .ph "target_cols".toList,
   .lit ")\n            SELECT DISTINCT ".toList,
   .ph "source_cols".toList,
   .lit "\n            FROM ".toList,
   .ph "source_table".toList,
   .lit " s\n            LEFT JOIN ".toList,
   .ph "target_table".toList,
   .lit " ON ".toList,
   .ph "unique_predicates".toList,
   .lit "\n            WHERE ".toList,
   .ph "a_join_key".toList,
   .lit " IS NULL\n            ".toList]

set_option maxRecDepth 4000 in
theorem updateTemplate_eq_segs : updateTemplate.toList = segsToChars updateSegs := by decide

set_option maxRecDepth 4000 in
theorem insertTemplate_eq_segs : insertTemplate.toList = segsToChars insertSegs := by decide

theorem updateSegs_ok : ∀ seg ∈ updateSegs, segOk seg := by
  intro seg h
  fin_cases h <;> (simp only [segOk]; decide)

theorem insertSegs_ok : ∀ seg ∈ insertSegs, segOk seg := by
  intro seg h
  fin_cases h <;> (simp only [segOk]; decide)

theorem renderSegs_update (a : UpsertArgs)
    (hT : no_quotes a.target_table = .raw a.target_table)
    (hS : no_quotes a.source_table = .raw a.source_table)
    (hU : no_quotes (joinWith ", " (updateClauses a)) =
      .raw (joinWith ", " (updateClauses a)))
    (hP : no_quotes (joinWith andSep (uniquePredicates a)) =
      .raw (joinWith andSep (uniquePredicates a)))
    (hQ : no_quotes (joinWith andSep (identicalRowPredicates a)) =
      .raw (joinWith andSep (identicalRowPredicates a))) :
    renderSegs (upsertParams a) updateSegs = .ok
      ("\n            -- Update target records that are already present.\n            UPDATE ".toList ++
       (a.target_table.toList ++
        ("\n            SET ".toList ++
         ((joinWith ", " (updateClauses a)).toList ++
          ("\n            FROM ".toList ++
           (a.source_table.toList ++
            (" s\n            WHERE (".toList ++
             ((joinWith andSep (uniquePredicates a)).toList ++
              (")\n                AND NOT (".toList ++
               ((joinWith andSep (identicalRowPredicates a)).toList ++
                ")\n            ".toList)))))))))) := by
  have l1 : (upsertParams a).lookup "target_table" = some (no_quotes a.target_table) := rfl
  have l2 : (upsertParams a).lookup "update_clause" =
    some (no_quotes (joinWith ", " (updateClauses a))) := rfl
  have l3 : (upsertParams a).lookup "source_table" = some (no_quotes a.source_table) := rfl
  have l4 : (upsertParams a).lookup "unique_predicates" =
    some (no_quotes (joinWith andSep (uniquePredicates a))) := rfl
  have l5 : (upsertParams a).lookup "identical_row_predicate" =
    some (no_quotes (joinWith andSep (identicalRowPredicates a))) := rfl
  simp only [updateSegs, renderSegs, asString_toList, l1, l2, l3, l4, l5, hT, hS, hU, hP,
    hQ, adapt, Except.map, List.append_nil]

theorem renderSegs_insert (a : UpsertArgs)
    (hT : no_quotes a.target_table = .raw a.target_table)
    (hS : no_quotes a.source_table = .raw a.source_table)
    (hTc : no_quotes (joinWith ", " (insertColList a)) =
      .raw (joinWith ", " (insertColList a)))
    (hSc : no_quotes (joinWith ", " (insertSourceCols a)) =
      .raw (joinWith ", " (insertSourceCols a)))
    (hP : no_quotes (joinWith andSep (uniquePredicates a)) =
      .raw (joinWith andSep (uniquePredicates a)))
    (hK : no_quotes (fmtDot a.target_table (a.uniqueness_keys.headD "")) =
      .raw (fmtDot a.target_table (a.uniqueness_keys.headD ""))) :
    renderSegs (upsertParams a) insertSegs = .ok
      ("\n            -- Insert new records, that are not already present.\n            INSERT INTO ".toList ++
       (a.target_table.toList ++
        (" (".toList ++
         ((joinWith ", " (insertColList a)).toList ++
          (")\n            SELECT DISTINCT ".toList ++
           ((joinWith ", " (insertSourceCols a)).toList ++
            ("\n            FROM ".toList ++
             (a.source_table.toList ++
              (" s\n            LEFT JOIN ".toList ++
               (a.target_table.toList ++
                (" ON ".toList ++
                 ((joinWith andSep (uniquePredicates a)).toList ++
                  ("\n            WHERE ".toList ++
                   ((fmtDot a.target_table (a.uniqueness_keys.headD "")).toList ++
                    " IS NULL\n            ".toList)))))))))))))) := by
  have l1 : (upsertParams a).lookup "target_table" = some (no_quotes a.target_table) := rfl
  have l2 : (upsertParams a).lookup "target_cols" =
    some (no_quotes (joinWith ", " (insertColList a))) := rfl
  have l3 : (upsertParams a).lookup "source_cols" =
    some (no_quotes (joinWith ", " (insertSourceCols a))) := rfl
  have l4 : (upsertParams a).lookup "source_table" = some (no_quotes a.source_table) := rfl
  have l5 : (upsertParams a).lookup "unique_predicates" =
    some (no_quotes (joinWith andSep (uniquePredicates a))) := rfl
  have l6 : (upsertParams a).lookup "a_join_key" =
    some (no_quotes (fmtDot a.target_table (a.uniqueness_keys.headD ""))) := rfl
  simp only [insertSegs, renderSegs, asString_toList, l1, l2, l3, l4, l5, l6, hT, hS, hTc,
    hSc, hP, hK, adapt, Except.map, List.append_nil]

/-! ### Plainness of the generated fragments -/

theorem uniquePredicates_eq (a : UpsertArgs) :
    uniquePredicates a = a.uniqueness_keys.map (fun col =>
      applyFunctions (colFns a.col_functions col) (fmtDot a.target_table col) ++ " = " ++
        applyFunctions (colFns a.col_functions col) ("s." ++ col)) := by
  unfold uniquePredicates targetUniqueColsFn sourceUniqueColsFn
    targetUniqueCols sourceUniqueCols
  rw [wrapColumns_map, wrapColumns_map, zipWith_map_same]

theorem identicalRowPredicates_eq (a : UpsertArgs) :
    identicalRowPredicates a = a.col_list.map (fun col =>
      applyFunctions (colFns a.col_functions col) (fmtDot a.target_table col) ++ " = " ++
        applyFunctions (colFns a.col_functions col) ("s." ++ col)) := by
  unfold identicalRowPredicates targetColsFn sourceColsFn targetCols sourceCols
  rw [wrapColumns_map, wrapColumns_map, zipWith_map_same]

theorem updateClauses_eq (a : UpsertArgs) :
    updateClauses a = a.col_list.map (fun col =>
      col ++ " = " ++ applyFunctions (colFns a.col_functions col) ("s." ++ col)) ++
      (if a.has_timestamps then ["updated_at = GETDATE()"] else []) := by
  unfold updateClauses sourceColsFn sourceCols
  rw [wrapColumns_map, zipWith_self_map]

theorem lookup_mem {cf : List (String × List String)} {col : String} {l : List String}
    (h : cf.lookup col = some l) : (col, l) ∈ cf := by
  induction cf with
  | nil => exact Option.noConfusion h
  | cons p ps ih =>
    rw [List.lookup] at h
    by_cases hc : (col == p.1) = true
    · rw [hc] at h
      cases h
      have : col = p.1 := beq_iff_eq.mp hc
      subst this
      left
    · rw [Bool.not_eq_true] at hc
      rw [hc] at h
      exact List.mem_cons_of_mem _ (ih h)

theorem colFns_plain {cf : List (String × List String)}
    (h : ∀ p ∈ cf, ∀ f ∈ p.2, plainStr f = true) (col : String) :
    ∀ f ∈ colFns cf col, plainStr f = true := by
  intro f hf
  unfold colFns at hf
  cases hl : cf.lookup col with
  | none => rw [hl] at hf; exact absurd hf (List.not_mem_nil f)
  | some l =>
    rw [hl] at hf
    exact h (col, l) (lookup_mem hl) f hf

theorem plain_applyFunctions {cf : List (String × List String)}
    (hcf : ∀ p ∈ cf, ∀ f ∈ p.2, plainStr f = true) (col e : String)
    (he : plainStr e = true) :
    plainStr (applyFunctions (colFns cf col) e) = true :=
  all_applyFunctions plainChar (by decide) _ e (colFns_plain hcf col) he

theorem plain_uniquePredicates (a : UpsertArgs)
    (hT : plainStr a.target_table = true)
    (hkeys : ∀ k ∈ a.uniqueness_keys, plainStr k = true)
    (hcf : ∀ p ∈ a.col_functions, ∀ f ∈ p.2, plainStr f = true) :
    ∀ x ∈ uniquePredicates a, plainStr x = true := by
  intro x hx
  rw [uniquePredicates_eq] at hx
  obtain ⟨col, hcol, rfl⟩ := List.mem_map.mp hx
  have hk := hkeys col hcol
  refine all_append_str plainChar _ _ (all_append_str plainChar _ _ ?_ (by decide)) ?_
  · exact plain_applyFunctions hcf col _
      (all_append_str plainChar _ _ (all_append_str plainChar _ _ hT (by decide)) hk)
  · exact plain_applyFunctions hcf col _ (all_append_str plainChar _ _ (by decide) hk)

theorem plain_identicalRowPredicates (a : UpsertArgs)
    (hT : plainStr a.target_table = true)
    (hcols : ∀ c ∈ a.col_list, plainStr c = true)
    (hcf : ∀ p ∈ a.col_functions, ∀ f ∈ p.2, plainStr f = true) :
    ∀ x ∈ identicalRowPredicates a, plainStr x = true := by
  intro x hx
  rw [identicalRowPredicates_eq] at hx
  obtain ⟨col, hcol, rfl⟩ := List.mem_map.mp hx
  have hk := hcols col hcol
  refine all_append_str plainChar _ _ (all_append_str plainChar _ _ ?_ (by decide)) ?_
  · exact plain_applyFunctions hcf col _
      (all_append_str plainChar _ _ (all_append_str plainChar _ _ hT (by decide)) hk)
  · exact plain_applyFunctions hcf col _ (all_append_str plainChar _ _ (by decide) hk)

theorem plain_updateClauses (a : UpsertArgs)
    (hcols : ∀ c ∈ a.col_list, plainStr c = true)
    (hcf : ∀ p ∈ a.col_functions, ∀ f ∈ p.2, plainStr f = true) :
    ∀ x ∈ updateClauses a, plainStr x = true := by
  intro x hx
  rw [updateClauses_eq] at hx
  rcases List.mem_append.mp hx with hx1 | hx2
  · obtain ⟨col, hcol, rfl⟩ := List.mem_map.mp hx1
    have hk := hcols col hcol
    refine all_append_str plainChar _ _ (all_append_str plainChar _ _ hk (by decide)) ?_
    exact plain_applyFunctions hcf col _ (all_append_str plainChar _ _ (by decide) hk)
  · by_cases ht : a.has_timestamps = true
    · rw [if_pos ht] at hx2
      rw [List.mem_singleton.mp hx2]
      decide
    · rw [if_neg ht] at hx2
      exact absurd hx2 (List.not_mem_nil x)

/-! ### The two rendered statements, line by line -/

def updLines (T U S u1 : List Char) (us : List (List Char)) (q1 : List Char)
    (qs : List (List Char)) : List (List Char) :=
  [[],
   m12c ++ "-- Update target records that are already present.".toList,
   m12c ++ ("UPDATE ".toList ++ T),
   m12c ++ ("SET ".toList ++ U),
   m12c ++ ("FROM ".toList ++ (S ++ " s".toList))] ++
  chainLines (m12c ++ "    AND ".toList) (m12c ++ "WHERE (".toList) u1 us ")".toList ++
  chainLines (m12c ++ "    AND ".toList) (m12c ++ "    AND NOT (".toList) q1 qs ")".toList ++
  [m12c]

def updLinesStripped (T U S u1 : List Char) (us : List (List Char)) (q1 : List Char)
    (qs : List (List Char)) : List (List Char) :=
  [[],
   "-- Update target records that are already present.".toList,
   "UPDATE ".toList ++ T,
   "SET ".toList ++ U,
   "FROM ".toList ++ (S ++ " s".toList)] ++
  chainLines ("    AND ".toList) ("WHERE (".toList) u1 us ")".toList ++
  chainLines ("    AND ".toList) ("    AND NOT (".toList) q1 qs ")".toList ++
  [[]]

def insLines (T Tc Sc S u1 : List Char) (us : List (List Char)) (K : List Char) :
    List (List Char) :=
  [[],
   m12c ++ "-- Insert new records, that are not already present.".toList,
   m12c ++ ("INSERT INTO ".toList ++ (T ++ (" (".toList ++ (Tc ++ ")".toList)))),
   m12c ++ ("SELECT DISTINCT ".toList ++ Sc),
   m12c ++ ("FROM ".toList ++ (S ++ " s".toList))] ++
  chainLines (m12c ++ "    AND ".toList)
    (m12c ++ ("LEFT JOIN ".toList ++ (T ++ " ON ".toList))) u1 us [] ++
  [m12c ++ ("WHERE ".toList ++ (K ++ " IS NULL".toList)),
   m12c]

def insLinesStripped (T Tc Sc S u1 : List Char) (us : List (List Char)) (K : List Char) :
    List (List Char) :=
  [[],
   "-- Insert new records, that are not already present.".toList,
   "INSERT INTO ".toList ++ (T ++ (" (".toList ++ (Tc ++ ")".toList))),
   "SELECT DISTINCT ".toList ++ Sc,
   "FROM ".toList ++ (S ++ " s".toList)] ++
  chainLines ("    AND ".toList) ("LEFT JOIN ".toList ++ (T ++ " ON ".toList)) u1 us [] ++
  ["WHERE ".toList ++ (K ++ " IS NULL".toList),
   []]

theorem strip_updLines (T U S u1 : List Char) (us : List (List Char)) (q1 : List Char)
    (qs : List (List Char)) :
    (updLines T U S u1 us q1 qs).map (fun l => stripMargin m12c (normWsLine l)) =
      updLinesStripped T U S u1 us q1 qs := by
  unfold updLines updLinesStripped
  rw [List.map_append, List.map_append, List.map_append]
  rw [chain_strip ("    AND ".toList) ⟨'A', by decide, by decide⟩ us
    ("WHERE (".toList) u1 (")".toList) ⟨'W', by decide, by decide⟩]
  rw [chain_strip ("    AND ".toList) ⟨'A', by decide, by decide⟩ qs
    ("    AND NOT (".toList) q1 (")".toList) ⟨'A', by decide, by decide⟩]
  have h0 : stripMargin m12c (normWsLine ([] : List Char)) = [] := by decide
  have h1 : stripMargin m12c (normWsLine
      (m12c ++ "-- Update target records that are already present.".toList)) =
      "-- Update target records that are already present.".toList := by decide
  have h2 : stripMargin m12c (normWsLine (m12c ++ ("UPDATE ".toList ++ T))) =
      "UPDATE ".toList ++ T :=
    strip_line_m12 _ ⟨'U', List.mem_append_left _ (by decide), by decide⟩
  have h3 : stripMargin m12c (normWsLine (m12c ++ ("SET ".toList ++ U))) =
      "SET ".toList ++ U :=
    strip_line_m12 _ ⟨'S', List.mem_append_left _ (by decide), by decide⟩
  have h4 : stripMargin m12c (normWsLine (m12c ++ ("FROM ".toList ++ (S ++ " s".toList)))) =
      "FROM ".toList ++ (S ++ " s".toList) :=
    strip_line_m12 _ ⟨'F', List.mem_append_left _ (by decide), by decide⟩
  have h5 : stripMargin m12c (normWsLine m12c) = [] := by decide
  simp only [List.map_cons, List.map_nil, h0, h1, h2, h3, h4, h5]

theorem strip_insLines (T Tc Sc S u1 : List Char) (us : List (List Char)) (K : List Char) :
    (insLines T Tc Sc S u1 us K).map (fun l => stripMargin m12c (normWsLine l)) =
      insLinesStripped T Tc Sc S u1 us K := by
  unfold insLines insLinesStripped
  rw [List.map_append, List.map_append]
  rw [chain_strip ("    AND ".toList) ⟨'A', by decide, by decide⟩ us
    ("LEFT JOIN ".toList ++ (T ++ " ON ".toList)) u1 []
    ⟨'L', List.mem_append_left _ (by decide), by decide⟩]
  have h0 : stripMargin m12c (normWsLine ([] : List Char)) = [] := by decide
  have h1 : stripMargin m12c (normWsLine
      (m12c ++ "-- Insert new records, that are not already present.".toList)) =
      "-- Insert new records, that are not already present.".toList := by decide
  have h2 : stripMargin m12c (normWsLine
      (m12c ++ ("INSERT INTO ".toList ++ (T ++ (" (".toList ++ (Tc ++ ")".toList)))))) =
      "INSERT INTO ".toList ++ (T ++ (" (".toList ++ (Tc ++ ")".toList))) :=
    strip_line_m12 _ ⟨'I', List.mem_append_left _ (by decide), by decide⟩
  have h3 : stripMargin m12c (normWsLine (m12c ++ ("SELECT DISTINCT ".toList ++ Sc))) =
      "SELECT DISTINCT ".toList ++ Sc :=
    strip_line_m12 _ ⟨'S', List.mem_append_left _ (by decide), by decide⟩
  have h4 : stripMargin m12c (normWsLine (m12c ++ ("FROM ".toList ++ (S ++ " s".toList)))) =
      "FROM ".toList ++ (S ++ " s".toList) :=
    strip_line_m12 _ ⟨'F', List.mem_append_left _ (by decide), by decide⟩
  have h5 : stripMargin m12c (normWsLine
      (m12c ++ ("WHERE ".toList ++ (K ++ " IS NULL".toList)))) =
      "WHERE ".toList ++ (K ++ " IS NULL".toList) :=
    strip_line_m12 _ ⟨'W', List.mem_append_left _ (by decide), by decide⟩
  have h6 : stripMargin m12c (normWsLine m12c) = [] := by decide
  simp only [List.map_cons, List.map_nil, h0, h1, h2, h3, h4, h5, h6]

theorem joinLines_updLines (T U S u1 : List Char) (us : List (List Char)) (q1 : List Char)
    (qs : List (List Char)) :
    joinLines (updLines T U S u1 us q1 qs) =
      "\n            -- Update target records that are already present.\n            UPDATE ".toList ++
      (T ++
       ("\n            SET ".toList ++
        (U ++
         ("\n            FROM ".toList ++
          (S ++
           (" s\n            WHERE (".toList ++
            (joinChars ('\n' :: (m12c ++ "    AND ".toList)) (u1 :: us) ++
             (")\n                AND NOT (".toList ++
              (joinChars ('\n' :: (m12c ++ "    AND ".toList)) (q1 :: qs) ++
               ")\n            ".toList))))))))) := by
  unfold updLines
  have hc1 := chainLines_ne_nil (m12c ++ "    AND ".toList) (m12c ++ "WHERE (".toList)
    u1 us (")".toList)
  have hc2 := chainLines_ne_nil (m12c ++ "    AND ".toList) (m12c ++ "    AND NOT (".toList)
    q1 qs (")".toList)
  rw [joinLines_append _ _ (fun h => hc2 (List.append_eq_nil.mp h).2) (by simp)]
  rw [joinLines_append _ _ (fun h => hc1 (List.append_eq_nil.mp h).2) hc2]
  rw [joinLines_append _ _ (by simp) hc1]
  rw [joinLines_chain, joinLines_chain]
  have e0 : ("\n            -- Update target records that are already present.\n            UPDATE ").toList =
      '\n' :: ((m12c ++ "-- Update target records that are already present.".toList) ++
        ('\n' :: (m12c ++ "UPDATE ".toList))) := by decide
  have e1 : ("\n            SET ").toList = '\n' :: (m12c ++ "SET ".toList) := by decide
  have e2 : ("\n            FROM ").toList = '\n' :: (m12c ++ "FROM ".toList) := by decide
  have e3 : (" s\n            WHERE (").toList =
      " s".toList ++ ('\n' :: (m12c ++ "WHERE (".toList)) := by decide
  have e4 : (")\n                AND NOT (").toList =
      ")".toList ++ ('\n' :: (m12c ++ "    AND NOT (".toList)) := by decide
  have e5 : (")\n            ").toList = ")".toList ++ ('\n' :: m12c) := by decide
  simp only [e0, e1, e2, e3, e4, e5, joinLines, List.append_assoc, List.cons_append,
    List.nil_append]

theorem joinLines_insLines (T Tc Sc S u1 : List Char) (us : List (List Char)) (K : List Char) :
    joinLines (insLines T Tc Sc S u1 us K) =
      "\n            -- Insert new records, that are not already present.\n            INSERT INTO ".toList ++
      (T ++
       (" (".toList ++
        (Tc ++
         (")\n            SELECT DISTINCT ".toList ++
          (Sc ++
           ("\n            FROM ".toList ++
            (S ++
             (" s\n            LEFT JOIN ".toList ++
              (T ++
               (" ON ".toList ++
                (joinChars ('\n' :: (m12c ++ "    AND ".toList)) (u1 :: us) ++
                 ("\n            WHERE ".toList ++
                  (K ++ " IS NULL\n            ".toList))))))))))))) := by
  unfold insLines
  have hc1 := chainLines_ne_nil (m12c ++ "    AND ".toList)
    (m12c ++ ("LEFT JOIN ".toList ++ (T ++ " ON ".toList))) u1 us []
  rw [joinLines_append _ _ (fun h => hc1 (List.append_eq_nil.mp h).2) (by simp)]
  rw [joinLines_append _ _ (by simp) hc1]
  rw [joinLines_chain]
  have e0 : ("\n            -- Insert new records, that are not already present.\n            INSERT INTO ").toList =
      '\n' :: ((m12c ++ "-- Insert new records, that are not already present.".toList) ++
        ('\n' :: (m12c ++ "INSERT INTO ".toList))) := by decide
  have e1 : (")\n            SELECT DISTINCT ").toList =
      ")".toList ++ ('\n' :: (m12c ++ "SELECT DISTINCT ".toList)) := by decide
  have e2 : ("\n            FROM ").toList = '\n' :: (m12c ++ "FROM ".toList) := by decide
  have e3 : (" s\n            LEFT JOIN ").toList =
      " s".toList ++ ('\n' :: (m12c ++ "LEFT JOIN ".toList)) := by decide
  have e4 : ("\n            WHERE ").toList = '\n' :: (m12c ++ "WHERE ".toList) := by decide
  have e5 : (" IS NULL\n            ").toList =
      " IS NULL".toList ++ ('\n' :: m12c) := by decide
  simp only [e0, e1, e2, e3, e4, e5, joinLines, List.append_assoc, List.cons_append,
    List.nil_append, List.append_nil]

theorem joinLines_updLinesStripped (T U S u1 : List Char) (us : List (List Char))
    (q1 : List Char) (qs : List (List Char)) :
    joinLines (updLinesStripped T U S u1 us q1 qs) =
      "\n-- Update target records that are already present.\nUPDATE ".toList ++
      (T ++
       ("\nSET ".toList ++
        (U ++
         ("\nFROM ".toList ++
          (S ++
           (" s\nWHERE (".toList ++
            (joinChars ('\n' :: "    AND ".toList) (u1 :: us) ++
             (")\n    AND NOT (".toList ++
              (joinChars ('\n' :: "    AND ".toList) (q1 :: qs) ++
               ")\n".toList))))))))) := by
  unfold updLinesStripped
  have hc1 := chainLines_ne_nil ("    AND ".toList) ("WHERE (".toList) u1 us (")".toList)
  have hc2 := chainLines_ne_nil ("    AND ".toList) ("    AND NOT (".toList) q1 qs (")".toList)
  rw [joinLines_append _ _ (fun h => hc2 (List.append_eq_nil.mp h).2) (by simp)]
  rw [joinLines_append _ _ (fun h => hc1 (List.append_eq_nil.mp h).2) hc2]
  rw [joinLines_append _ _ (by simp) hc1]
  rw [joinLines_chain, joinLines_chain]
  have e0 : ("\n-- Update target records that are already present.\nUPDATE ").toList =
      '\n' :: ("-- Update target records that are already present.".toList ++
        ('\n' :: "UPDATE ".toList)) := by decide
  have e1 : ("\nSET ").toList = '\n' :: "SET ".toList := by decide
  have e2 : ("\nFROM ").toList = '\n' :: "FROM ".toList := by decide
  have e3 : (" s\nWHERE (").toList = " s".toList ++ ('\n' :: "WHERE (".toList) := by decide
  have e4 : (")\n    AND NOT (").toList =
      ")".toList ++ ('\n' :: "    AND NOT (".toList) := by decide
  have e5 : (")\n").toList = ")".toList ++ ('\n' :: ([] : List Char)) := by decide
  simp only [e0, e1, e2, e3, e4, e5, joinLines, List.append_assoc, List.cons_append,
    List.nil_append]

theorem joinLines_insLinesStripped (T Tc Sc S u1 : List Char) (us : List (List Char))
    (K : List Char) :
    joinLines (insLinesStripped T Tc Sc S u1 us K) =
      "\n-- Insert new records, that are not already present.\nINSERT INTO ".toList ++
      (T ++
       (" (".toList ++
        (Tc ++
         (")\nSELECT DISTINCT ".toList ++
          (Sc ++
           ("\nFROM ".toList ++
            (S ++
             (" s\nLEFT JOIN ".toList ++
              (T ++
               (" ON ".toList ++
                (joinChars ('\n' :: "    AND ".toList) (u1 :: us) ++
                 ("\nWHERE ".toList ++
                  (K ++ " IS NULL\n".toList))))))))))))) := by
  unfold insLinesStripped
  have hc1 := chainLines_ne_nil ("    AND ".toList)
    ("LEFT JOIN ".toList ++ (T ++ " ON ".toList)) u1 us []
  rw [joinLines_append _ _ (fun h => hc1 (List.append_eq_nil.mp h).2) (by simp)]
  rw [joinLines_append _ _ (by simp) hc1]
  rw [joinLines_chain]
  have e0 : ("\n-- Insert new records, that are not already present.\nINSERT INTO ").toList =
      '\n' :: ("-- Insert new records, that are not already present.".toList ++
        ('\n' :: "INSERT INTO ".toList)) := by decide
  have e1 : (")\nSELECT DISTINCT ").toList =
      ")".toList ++ ('\n' :: "SELECT DISTINCT ".toList) := by decide
  have e2 : ("\nFROM ").toList = '\n' :: "FROM ".toList := by decide
  have e3 : (" s\nLEFT JOIN ").toList =
      " s".toList ++ ('\n' :: "LEFT JOIN ".toList) := by decide
  have e4 : ("\nWHERE ").toList = '\n' :: "WHERE ".toList := by decide
  have e5 : (" IS NULL\n").toList = " IS NULL".toList ++ ('\n' :: ([] : List Char)) := by decide
  simp only [e0, e1, e2, e3, e4, e5, joinLines, List.append_assoc, List.cons_append,
    List.nil_append, List.append_nil]

theorem chainLines_nl (cont : List Char) (hcont : ∀ c ∈ cont, c ≠ '\n')
    (qs : List (List Char)) :
    ∀ (first p close : List Char),
      (∀ c ∈ first, c ≠ '\n') → (∀ c ∈ p, c ≠ '\n') →
      (∀ q ∈ qs, ∀ c ∈ q, c ≠ '\n') → (∀ c ∈ close, c ≠ '\n') →
      ∀ l ∈ chainLines cont first p qs close, ∀ c ∈ l, c ≠ '\n' := by
  induction qs with
  | nil =>
    intro first p close hfirst hp _ hclose l hl c hc
    simp only [chainLines, List.mem_singleton] at hl
    subst hl
    rcases List.mem_append.mp hc with h1 | h2
    · rcases List.mem_append.mp h1 with h3 | h4
      · exact hfirst c h3
      · exact hp c h4
    · exact hclose c h2
  | cons q qs2 ih =>
    intro first p close hfirst hp hqs hclose l hl c hc
    simp only [chainLines, List.mem_cons] at hl
    rcases hl with rfl | hl2
    · rcases List.mem_append.mp hc with h1 | h2
      · exact hfirst c h1
      · exact hp c h2
    · exact ih cont q close hcont (hqs q (List.mem_cons_self q qs2))
        (fun x hx => hqs x (List.mem_cons_of_mem q hx)) hclose l hl2 c hc

theorem chainLines_shape (g : List Char) (qs : List (List Char)) :
    ∀ (f p close : List Char),
      ∀ l ∈ chainLines (m12c ++ g) (m12c ++ f) p qs close, ∃ t, l = m12c ++ t := by
  induction qs with
  | nil =>
    intro f p close l hl
    simp only [chainLines, List.mem_singleton] at hl
    exact ⟨f ++ p ++ close, by rw [hl]; simp [List.append_assoc]⟩
  | cons q qs2 ih =>
    intro f p close l hl
    simp only [chainLines, List.mem_cons] at hl
    rcases hl with rfl | hl2
    · exact ⟨f ++ p, by rw [List.append_assoc]⟩
    · exact ih g q close l hl2

theorem nl_append {x y : List Char} (hx : ∀ c ∈ x, c ≠ '\n') (hy : ∀ c ∈ y, c ≠ '\n') :
    ∀ c ∈ x ++ y, c ≠ '\n' := by
  intro c hc
  rcases List.mem_append.mp hc with h | h
  · exact hx c h
  · exact hy c h

theorem updLines_nl (T U S u1 : List Char) (us : List (List Char)) (q1 : List Char)
    (qs : List (List Char))
    (hT : ∀ c ∈ T, c ≠ '\n') (hU : ∀ c ∈ U, c ≠ '\n') (hS : ∀ c ∈ S, c ≠ '\n')
    (hu1 : ∀ c ∈ u1, c ≠ '\n') (hus : ∀ l ∈ us, ∀ c ∈ l, c ≠ '\n')
    (hq1 : ∀ c ∈ q1, c ≠ '\n') (hqs : ∀ l ∈ qs, ∀ c ∈ l, c ≠ '\n') :
    ∀ l ∈ updLines T U S u1 us q1 qs, ∀ c ∈ l, c ≠ '\n' := by
  intro l hl
  unfold updLines at hl
  rcases List.mem_append.mp hl with h1 | h2
  · rcases List.mem_append.mp h1 with h3 | h4
    · rcases List.mem_append.mp h3 with h5 | h6
      · simp only [List.mem_cons, List.not_mem_nil, or_false] at h5
        rcases h5 with rfl | rfl | rfl | rfl | rfl
        · exact fun c hc => absurd hc (List.not_mem_nil c)
        · decide
        · exact nl_append (by decide) (nl_append (by decide) hT)
        · exact nl_append (by decide) (nl_append (by decide) hU)
        · exact nl_append (by decide) (nl_append (by decide) (nl_append hS (by decide)))
      · exact chainLines_nl _ (by decide) us _ _ _ (by decide) hu1 hus (by decide) l h6
    · exact chainLines_nl _ (by decide) qs _ _ _ (by decide) hq1 hqs (by decide) l h4
  · rw [List.mem_singleton.mp h2]
    decide

theorem insLines_nl (T Tc Sc S u1 : List Char) (us : List (List Char)) (K : List Char)
    (hT : ∀ c ∈ T, c ≠ '\n') (hTc : ∀ c ∈ Tc, c ≠ '\n') (hSc : ∀ c ∈ Sc, c ≠ '\n')
    (hS : ∀ c ∈ S, c ≠ '\n') (hu1 : ∀ c ∈ u1, c ≠ '\n')
    (hus : ∀ l ∈ us, ∀ c ∈ l, c ≠ '\n') (hK : ∀ c ∈ K, c ≠ '\n') :
    ∀ l ∈ insLines T Tc Sc S u1 us K, ∀ c ∈ l, c ≠ '\n' := by
  intro l hl
  unfold insLines at hl
  rcases List.mem_append.mp hl with h1 | h2
  · rcases List.mem_append.mp h1 with h3 | h4
    · simp only [List.mem_cons, List.not_mem_nil, or_false] at h3
      rcases h3 with rfl | rfl | rfl | rfl | rfl
      · exact fun c hc => absurd hc (List.not_mem_nil c)
      · decide
      · exact nl_append (by decide)
          (nl_append (by decide) (nl_append hT (nl_append (by decide)
            (nl_append hTc (by decide)))))
      · exact nl_append (by decide) (nl_append (by decide) hSc)
      · exact nl_append (by decide) (nl_append (by decide) (nl_append hS (by decide)))
    · exact chainLines_nl _ (by decide) us _ _ _
        (nl_append (by decide) (nl_append (by decide) (nl_append hT (by decide))))
        hu1 hus (fun c hc => absurd hc (List.not_mem_nil c)) l h4
  · simp only [List.mem_cons, List.not_mem_nil, or_false] at h2
    rcases h2 with rfl | rfl
    · exact nl_append (by decide) (nl_append (by decide) (nl_append hK (by decide)))
    · decide

theorem updLines_shape (T U S u1 : List Char) (us : List (List Char)) (q1 : List Char)
    (qs : List (List Char)) :
    ∀ l ∈ updLines T U S u1 us q1 qs, l = [] ∨ ∃ t, l = m12c ++ t := by
  intro l hl
  unfold updLines at hl
  rcases List.mem_append.mp hl with h1 | h2
  · rcases List.mem_append.mp h1 with h3 | h4
    · rcases List.mem_append.mp h3 with h5 | h6
      · simp only [List.mem_cons, List.not_mem_nil, or_false] at h5
        rcases h5 with rfl | rfl | rfl | rfl | rfl
        · exact Or.inl rfl
        · exact Or.inr ⟨_, rfl⟩
        · exact Or.inr ⟨_, rfl⟩
        · exact Or.inr ⟨_, rfl⟩
        · exact Or.inr ⟨_, rfl⟩
      · exact Or.inr (chainLines_shape _ us _ _ _ l h6)
    · exact Or.inr (chainLines_shape _ qs _ _ _ l h4)
  · rw [List.mem_singleton.mp h2]
    exact Or.inr ⟨[], (List.append_nil m12c).symm⟩

theorem insLines_shape (T Tc Sc S u1 : List Char) (us : List (List Char)) (K : List Char) :
    ∀ l ∈ insLines T Tc Sc S u1 us K, l = [] ∨ ∃ t, l = m12c ++ t := by
  intro l hl
  unfold insLines at hl
  rcases List.mem_append.mp hl with h1 | h2
  · rcases List.mem_append.mp h1 with h3 | h4
    · simp only [List.mem_cons, List.not_mem_nil, or_false] at h3
      rcases h3 with rfl | rfl | rfl | rfl | rfl
      · exact Or.inl rfl
      · exact Or.inr ⟨_, rfl⟩
      · exact Or.inr ⟨_, rfl⟩
      · exact Or.inr ⟨_, rfl⟩
      · exact Or.inr ⟨_, rfl⟩
    · exact Or.inr (chainLines_shape _ us _ _ _ l h4)
  · simp only [List.mem_cons, List.not_mem_nil, or_false] at h2
    rcases h2 with rfl | rfl
    · exact Or.inr ⟨_, rfl⟩
    · exact Or.inr ⟨[], (List.append_nil m12c).symm⟩

theorem updLines_pin (T U S u1 : List Char) (us : List (List Char)) (q1 : List Char)
    (qs : List (List Char)) :
    ∃ inds, ((updLines T U S u1 us q1 qs).map normWsLine).filterMap lineIndent =
      m12c :: inds := by
  have f0 : lineIndent (normWsLine ([] : List Char)) = none := by decide
  have f1 : lineIndent (normWsLine
      (m12c ++ "-- Update target records that are already present.".toList)) =
      some m12c := by decide
  unfold updLines
  simp only [List.cons_append, List.nil_append, List.map_cons, List.filterMap_cons, f0, f1]
  exact ⟨_, rfl⟩

theorem insLines_pin (T Tc Sc S u1 : List Char) (us : List (List Char)) (K : List Char) :
    ∃ inds, ((insLines T Tc Sc S u1 us K).map normWsLine).filterMap lineIndent =
      m12c :: inds := by
  have f0 : lineIndent (normWsLine ([] : List Char)) = none := by decide
  have f1 : lineIndent (normWsLine
      (m12c ++ "-- Insert new records, that are not already present.".toList)) =
      some m12c := by decide
  unfold insLines
  simp only [List.cons_append, List.nil_append, List.map_cons, List.filterMap_cons, f0, f1]
  exact ⟨_, rfl⟩

theorem sourceColsFn_eq (a : UpsertArgs) :
    sourceColsFn a = a.col_list.map (fun col =>
      applyFunctions (colFns a.col_functions col) ("s." ++ col)) := by
  unfold sourceColsFn sourceCols
  rw [wrapColumns_map]

theorem plain_insertColList (a : UpsertArgs)
    (hcols : ∀ c ∈ a.col_list, plainStr c = true) :
    ∀ x ∈ insertColList a, plainStr x = true := by
  intro x hx
  unfold insertColList at hx
  rcases List.mem_append.mp hx with h1 | h2
  · exact hcols x h1
  · by_cases ht : a.has_timestamps
    · rw [if_pos ht] at h2
      simp only [List.mem_cons, List.not_mem_nil, or_false] at h2
      rcases h2 with rfl | rfl
      · decide
      · decide
    · rw [if_neg ht] at h2
      exact absurd h2 (List.not_mem_nil x)

theorem plain_insertSourceCols (a : UpsertArgs)
    (hcols : ∀ c ∈ a.col_list, plainStr c = true)
    (hcf : ∀ p ∈ a.col_functions, ∀ f ∈ p.2, plainStr f = true) :
    ∀ x ∈ insertSourceCols a, plainStr x = true := by
  intro x hx
  unfold insertSourceCols at hx
  rcases List.mem_append.mp hx with h1 | h2
  · rw [sourceColsFn_eq] at h1
    obtain ⟨col, hcol, rfl⟩ := List.mem_map.mp h1
    exact plain_applyFunctions hcf col _
      (all_append_str plainChar "s." col (by decide) (hcols col hcol))
  · by_cases ht : a.has_timestamps
    · rw [if_pos ht] at h2
      simp only [List.mem_cons, List.not_mem_nil, or_false] at h2
      rcases h2 with rfl | rfl
      · decide
      · decide
    · rw [if_neg ht] at h2
      exact absurd h2 (List.not_mem_nil x)

theorem uniquePredicates_ne_nil (a : UpsertArgs) (hk : a.uniqueness_keys ≠ []) :
    uniquePredicates a ≠ [] := by
  rw [uniquePredicates_eq]
  intro h
  exact hk (List.map_eq_nil_iff.mp h)

theorem identicalRowPredicates_ne_nil (a : UpsertArgs) (hc : a.col_list ≠ []) :
    identicalRowPredicates a ≠ [] := by
  rw [identicalRowPredicates_eq]
  intro h
  exact hc (List.map_eq_nil_iff.mp h)


theorem map_strip_norm (lines : List (List Char)) :
    (lines.map normWsLine).map (stripMargin m12c) =
      lines.map (fun l => stripMargin m12c (normWsLine l)) := by
  rw [List.map_map]
  rfl

/-- The UPDATE statement the upsert hands the driver, written out with
the dedent already applied (what amg_cursor.py:154-163 executes). -/
def updateSqlSpec (a : UpsertArgs) : String :=
  "\n-- Update target records that are already present.\nUPDATE " ++ a.target_table ++
  "\nSET " ++ joinWith ", " (updateClauses a) ++ "\nFROM " ++ a.source_table ++
  " s\nWHERE (" ++ joinWith "\n    AND " (uniquePredicates a) ++ ")\n    AND NOT (" ++
  joinWith "\n    AND " (identicalRowPredicates a) ++ ")\n"

/-- The INSERT statement the upsert hands the driver, written out with
the dedent already applied (what amg_cursor.py:166-175 executes). -/
def insertSqlSpec (a : UpsertArgs) : String :=
  "\n-- Insert new records, that are not already present.\nINSERT INTO " ++ a.target_table ++
  " (" ++ joinWith ", " (insertColList a) ++ ")\nSELECT DISTINCT " ++
  joinWith ", " (insertSourceCols a) ++ "\nFROM " ++ a.source_table ++
  " s\nLEFT JOIN " ++ a.target_table ++ " ON " ++
  joinWith "\n    AND " (uniquePredicates a) ++ "\nWHERE " ++
  fmtDot a.target_table (a.uniqueness_keys.headD "") ++ " IS NULL\n"

theorem executeFinal_update (a : UpsertArgs)
    (hT : plainStr a.target_table = true)
    (hS : plainStr a.source_table = true)
    (hcols : ∀ c ∈ a.col_list, plainStr c = true)
    (hkeys : ∀ k ∈ a.uniqueness_keys, plainStr k = true)
    (hcf : ∀ p ∈ a.col_functions, ∀ f ∈ p.2, plainStr f = true)
    (hkne : a.uniqueness_keys ≠ [])
    (hcne : a.col_list ≠ []) :
    executeFinalSql updateTemplate (some (upsertParams a)) = .ok (updateSqlSpec a) := by
  have hPe := plain_uniquePredicates a hT hkeys hcf
  have hQe := plain_identicalRowPredicates a hT hcols hcf
  have plU : plainStr (joinWith ", " (updateClauses a)) = true :=
    all_joinWith plainChar ", " (by decide) _ (plain_updateClauses a hcols hcf)
  obtain ⟨p1, ps1, hPeq⟩ : ∃ x xs, uniquePredicates a = x :: xs := by
    cases h : uniquePredicates a with
    | nil => exact absurd h (uniquePredicates_ne_nil a hkne)
    | cons x xs => exact ⟨x, xs, rfl⟩
  obtain ⟨r1, rs1, hQeq⟩ : ∃ x xs, identicalRowPredicates a = x :: xs := by
    cases h : identicalRowPredicates a with
    | nil => exact absurd h (identicalRowPredicates_ne_nil a hcne)
    | cons x xs => exact ⟨x, xs, rfl⟩
  have nqT := no_quotes_of_noQuote a.target_table (plain_all_noQuote hT)
  have nqS := no_quotes_of_noQuote a.source_table (plain_all_noQuote hS)
  have nqU := no_quotes_of_noQuote (joinWith ", " (updateClauses a)) (plain_all_noQuote plU)
  have nqP := no_quotes_of_noQuote (joinWith andSep (uniquePredicates a))
    (all_joinWith noQuoteChar andSep (by decide) _ (fun x hx => plain_all_noQuote (hPe x hx)))
  have nqQ := no_quotes_of_noQuote (joinWith andSep (identicalRowPredicates a))
    (all_joinWith noQuoteChar andSep (by decide) _ (fun x hx => plain_all_noQuote (hQe x hx)))
  have hrender := renderSegs_update a nqT nqS nqU nqP nqQ
  have hnlT := plain_no_newline hT
  have hnlU := plain_no_newline plU
  have hnlS := plain_no_newline hS
  have hp1mem : p1 ∈ uniquePredicates a := by
    rw [hPeq]; exact List.mem_cons_self p1 ps1
  have hr1mem : r1 ∈ identicalRowPredicates a := by
    rw [hQeq]; exact List.mem_cons_self r1 rs1
  have hnlp1 := plain_no_newline (hPe p1 hp1mem)
  have hnlr1 := plain_no_newline (hQe r1 hr1mem)
  have hnlps : ∀ l ∈ ps1.map String.toList, ∀ c ∈ l, c ≠ '\n' := by
    intro l hl
    obtain ⟨x, hx, rfl⟩ := List.mem_map.mp hl
    exact plain_no_newline (hPe x (by rw [hPeq]; exact List.mem_cons_of_mem p1 hx))
  have hnlrs : ∀ l ∈ rs1.map String.toList, ∀ c ∈ l, c ≠ '\n' := by
    intro l hl
    obtain ⟨x, hx, rfl⟩ := List.mem_map.mp hl
    exact plain_no_newline (hQe x (by rw [hQeq]; exact List.mem_cons_of_mem r1 hx))
  have hnl := updLines_nl a.target_table.toList ((joinWith ", " (updateClauses a)).toList)
    a.source_table.toList p1.toList (ps1.map String.toList) r1.toList
    (rs1.map String.toList) hnlT hnlU hnlS hnlp1 hnlps hnlr1 hnlrs
  have hsh := updLines_shape a.target_table.toList
    ((joinWith ", " (updateClauses a)).toList) a.source_table.toList p1.toList
    (ps1.map String.toList) r1.toList (rs1.map String.toList)
  have hne : updLines a.target_table.toList ((joinWith ", " (updateClauses a)).toList)
      a.source_table.toList p1.toList (ps1.map String.toList) r1.toList
      (rs1.map String.toList) ≠ [] := by
    unfold updLines
    simp
  obtain ⟨inds, hpin⟩ := updLines_pin a.target_table.toList
    ((joinWith ", " (updateClauses a)).toList) a.source_table.toList p1.toList
    (ps1.map String.toList) r1.toList (rs1.map String.toList)
  have hPc : (joinWith andSep (uniquePredicates a)).toList =
      joinChars ('\n' :: (m12c ++ "    AND ".toList))
        (p1.toList :: ps1.map String.toList) := by
    rw [hPeq, toList_joinWith]
    rw [show andSep.toList = '\n' :: (m12c ++ "    AND ".toList) from by decide]
    rfl
  have hQc : (joinWith andSep (identicalRowPredicates a)).toList =
      joinChars ('\n' :: (m12c ++ "    AND ".toList))
        (r1.toList :: rs1.map String.toList) := by
    rw [hQeq, toList_joinWith]
    rw [show andSep.toList = '\n' :: (m12c ++ "    AND ".toList) from by decide]
    rfl
  have hPc2 : (joinWith "\n    AND " (uniquePredicates a)).toList =
      joinChars ('\n' :: "    AND ".toList) (p1.toList :: ps1.map String.toList) := by
    rw [hPeq, toList_joinWith]
    rw [show ("\n    AND ").toList = '\n' :: "    AND ".toList from by decide]
    rfl
  have hQc2 : (joinWith "\n    AND " (identicalRowPredicates a)).toList =
      joinChars ('\n' :: "    AND ".toList) (r1.toList :: rs1.map String.toList) := by
    rw [hQeq, toList_joinWith]
    rw [show ("\n    AND ").toList = '\n' :: "    AND ".toList from by decide]
    rfl
  have hflat : (updateSqlSpec a).toList =
      joinLines (updLinesStripped a.target_table.toList
        ((joinWith ", " (updateClauses a)).toList) a.source_table.toList p1.toList
        (ps1.map String.toList) r1.toList (rs1.map String.toList)) := by
    rw [joinLines_updLinesStripped]
    simp only [updateSqlSpec, data_append, List.append_assoc]
    rw [hPc2, hQc2]
  unfold executeFinalSql
  rw [show mogrify updateTemplate (some (upsertParams a)) =
      (mogrifyGo (upsertParams a) ScanMode.text updateTemplate.toList).map List.asString
    from rfl]
  rw [updateTemplate_eq_segs, mogrifyGo_segs (upsertParams a) updateSegs updateSegs_ok,
    hrender]
  simp only [Except.map]
  congr 1
  unfold dedent
  rw [toList_asString, hPc, hQc]
  rw [← joinLines_updLines a.target_table.toList
    ((joinWith ", " (updateClauses a)).toList) a.source_table.toList p1.toList
    (ps1.map String.toList) r1.toList (rs1.map String.toList)]
  rw [dedent_strips_margin _ hnl hne hsh inds hpin]
  rw [map_strip_norm, strip_updLines, ← hflat, asString_toList]

theorem executeFinal_insert (a : UpsertArgs)
    (hT : plainStr a.target_table = true)
    (hS : plainStr a.source_table = true)
    (hcols : ∀ c ∈ a.col_list, plainStr c = true)
    (hkeys : ∀ k ∈ a.uniqueness_keys, plainStr k = true)
    (hcf : ∀ p ∈ a.col_functions, ∀ f ∈ p.2, plainStr f = true)
    (hkne : a.uniqueness_keys ≠ [])
    (_hcne : a.col_list ≠ []) :
    executeFinalSql insertTemplate (some (upsertParams a)) = .ok (insertSqlSpec a) := by
  have hPe := plain_uniquePredicates a hT hkeys hcf
  have plTc : plainStr (joinWith ", " (insertColList a)) = true :=
    all_joinWith plainChar ", " (by decide) _ (plain_insertColList a hcols)
  have plSc : plainStr (joinWith ", " (insertSourceCols a)) = true :=
    all_joinWith plainChar ", " (by decide) _ (plain_insertSourceCols a hcols hcf)
  obtain ⟨p1, ps1, hPeq⟩ : ∃ x xs, uniquePredicates a = x :: xs := by
    cases h : uniquePredicates a with
    | nil => exact absurd h (uniquePredicates_ne_nil a hkne)
    | cons x xs => exact ⟨x, xs, rfl⟩
  obtain ⟨k1, ks, hkeq⟩ : ∃ x xs, a.uniqueness_keys = x :: xs := by
    cases h : a.uniqueness_keys with
    | nil => exact absurd h hkne
    | cons x xs => exact ⟨x, xs, rfl⟩
  have hkhead : plainStr (a.uniqueness_keys.headD "") = true := by
    rw [hkeq]
    exact hkeys k1 (by rw [hkeq]; exact List.mem_cons_self k1 ks)
  have hKplain : plainStr (fmtDot a.target_table (a.uniqueness_keys.headD "")) = true := by
    unfold fmtDot
    exact all_append_str plainChar _ _ (all_append_str plainChar _ _ hT (by decide)) hkhead
  have nqT := no_quotes_of_noQuote a.target_table (plain_all_noQuote hT)
  have nqS := no_quotes_of_noQuote a.source_table (plain_all_noQuote hS)
  have nqTc := no_quotes_of_noQuote (joinWith ", " (insertColList a)) (plain_all_noQuote plTc)
  have nqSc := no_quotes_of_noQuote (joinWith ", " (insertSourceCols a))
    (plain_all_noQuote plSc)
  have nqP := no_quotes_of_noQuote (joinWith andSep (uniquePredicates a))
    (all_joinWith noQuoteChar andSep (by decide) _ (fun x hx => plain_all_noQuote (hPe x hx)))
  have nqK := no_quotes_of_noQuote (fmtDot a.target_table (a.uniqueness_keys.headD ""))
    (plain_all_noQuote hKplain)
  have hrender := renderSegs_insert a nqT nqS nqTc nqSc nqP nqK
  have hnlT := plain_no_newline hT
  have hnlTc := plain_no_newline plTc
  have hnlSc := plain_no_newline plSc
  have hnlS := plain_no_newline hS
  have hp1mem : p1 ∈ uniquePredicates a := by
    rw [hPeq]; exact List.mem_cons_self p1 ps1
  have hnlp1 := plain_no_newline (hPe p1 hp1mem)
  have hnlps : ∀ l ∈ ps1.map String.toList, ∀ c ∈ l, c ≠ '\n' := by
    intro l hl
    obtain ⟨x, hx, rfl⟩ := List.mem_map.mp hl
    exact plain_no_newline (hPe x (by rw [hPeq]; exact List.mem_cons_of_mem p1 hx))
  have hnlK := plain_no_newline hKplain
  have hnl := insLines_nl a.target_table.toList ((joinWith ", " (insertColList a)).toList)
    ((joinWith ", " (insertSourceCols a)).toList) a.source_table.toList p1.toList
    (ps1.map String.toList) ((fmtDot a.target_table (a.uniqueness_keys.headD "")).toList)
    hnlT hnlTc hnlSc hnlS hnlp1 hnlps hnlK
  have hsh := insLines_shape a.target_table.toList
    ((joinWith ", " (insertColList a)).toList)
    ((joinWith ", " (insertSourceCols a)).toList) a.source_table.toList p1.toList
    (ps1.map String.toList) ((fmtDot a.target_table (a.uniqueness_keys.headD "")).toList)
  have hne : insLines a.target_table.toList ((joinWith ", " (insertColList a)).toList)
      ((joinWith ", " (insertSourceCols a)).toList) a.source_table.toList p1.toList
      (ps1.map String.toList)
      ((fmtDot a.target_table (a.uniqueness_keys.headD "")).toList) ≠ [] := by
    unfold insLines
    simp
  obtain ⟨inds, hpin⟩ := insLines_pin a.target_table.toList
    ((joinWith ", " (insertColList a)).toList)
    ((joinWith ", " (insertSourceCols a)).toList) a.source_table.toList p1.toList
    (ps1.map String.toList) ((fmtDot a.target_table (a.uniqueness_keys.headD "")).toList)
  have hPc : (joinWith andSep (uniquePredicates a)).toList =
      joinChars ('\n' :: (m12c ++ "    AND ".toList))
        (p1.toList :: ps1.map String.toList) := by
    rw [hPeq, toList_joinWith]
    rw [show andSep.toList = '\n' :: (m12c ++ "    AND ".toList) from by decide]
    rfl
  have hPc2 : (joinWith "\n    AND " (uniquePredicates a)).toList =
      joinChars ('\n' :: "    AND ".toList) (p1.toList :: ps1.map String.toList) := by
    rw [hPeq, toList_joinWith]
    rw [show ("\n    AND ").toList = '\n' :: "    AND ".toList from by decide]
    rfl
  have hflat : (insertSqlSpec a).toList =
      joinLines (insLinesStripped a.target_table.toList
        ((joinWith ", " (insertColList a)).toList)
        ((joinWith ", " (insertSourceCols a)).toList) a.source_table.toList p1.toList
        (ps1.map String.toList)
        ((fmtDot a.target_table (a.uniqueness_keys.headD "")).toList)) := by
    rw [joinLines_insLinesStripped]
    simp only [insertSqlSpec, data_append, List.append_assoc]
    rw [hPc2]
  unfold executeFinalSql
  rw [show mogrify insertTemplate (some (upsertParams a)) =
      (mogrifyGo (upsertParams a) ScanMode.text insertTemplate.toList).map List.asString
    from rfl]
  rw [insertTemplate_eq_segs, mogrifyGo_segs (upsertParams a) insertSegs insertSegs_ok,
    hrender]
  simp only [Except.map]
  congr 1
  unfold dedent
  rw [toList_asString, hPc]
  rw [← joinLines_insLines a.target_table.toList
    ((joinWith ", " (insertColList a)).toList)
    ((joinWith ", " (insertSourceCols a)).toList) a.source_table.toList p1.toList
    (ps1.map String.toList) ((fmtDot a.target_table (a.uniqueness_keys.headD "")).toList)]
  rw [dedent_strips_margin _ hnl hne hsh inds hpin]
  rw [map_strip_norm, strip_insLines, ← hflat, asString_toList]

/-- Claim C3: for every upsert specification (with nonempty uniqueness
keys and column list, and quote-and-newline-free identifiers), `upsert`
emits exactly two statements in order — first the UPDATE of the target
table joined to the source table where the conjunction of the
uniqueness-key equalities holds AND NOT the conjunction of the
per-column identical-row equalities, then the INSERT that selects
DISTINCT function-applied source rows (plus GETDATE()-valued created_at
and updated_at when timestamps are enabled) from the source table
left-joined to the target table on the uniqueness predicate, keeping
only rows whose join key came out NULL. -/
theorem C3_upsert_emits_update_then_insert (a : UpsertArgs)
    (hT : plainStr a.target_table = true)
    (hS : plainStr a.source_table = true)
    (hcols : ∀ c ∈ a.col_list, plainStr c = true)
    (hkeys : ∀ k ∈ a.uniqueness_keys, plainStr k = true)
    (hcf : ∀ p ∈ a.col_functions, ∀ f ∈ p.2, plainStr f = true)
    (hkne : a.uniqueness_keys ≠ [])
    (hcne : a.col_list ≠ []) :
    upsertFinalSql a = .ok [updateSqlSpec a, insertSqlSpec a] := by
  have h1 := executeFinal_update a hT hS hcols hkeys hcf hkne hcne
  have h2 := executeFinal_insert a hT hS hcols hkeys hcf hkne hcne
  unfold upsertFinalSql upsert
  simp only [List.mapM_cons, List.mapM_nil, h1, h2]
  rfl

/-- Witness for C3 at a concrete upsert specification. -/
theorem C3_upsert_emits_update_then_insert_witness :
    upsertFinalSql ⟨"stg", "tgt", ["id"], ["id", "name"],
        [("name", ["TRIM", "UPPER"])], true⟩ =
      .ok [updateSqlSpec ⟨"stg", "tgt", ["id"], ["id", "name"],
        [("name", ["TRIM", "UPPER"])], true⟩,
        insertSqlSpec ⟨"stg", "tgt", ["id"], ["id", "name"],
        [("name", ["TRIM", "UPPER"])], true⟩] :=
  C3_upsert_emits_update_then_insert _ (by decide) (by decide) (by decide) (by decide)
    (by decide) (by decide) (by decide)
